import Mathlib

/-!
Verification development for the git-wmem commit pipeline.

The Go sources are shallowly embedded: go-git's content-addressed object
store is modelled by `Repo`, where an object's hash is its canonical
serialization (`serializeObj`), so hash equality coincides with byte
equality of encoded objects.  Filesystem state is modelled by `FSEntry`
trees; OS calls (`os.Stat`, `os.ReadFile`, `os.Readlink`, mtimes) are
modelled by total functions over that state, with the documented POSIX
semantics (`os.Stat` follows symlinks, `os.Lstat`/`DirEntry.Info` does
not).  Functions that in Go walk an object graph through the store take an
explicit recursion-depth bound (`fuel`), since the store is an association
list rather than an inductive tree.
-/

set_option maxRecDepth 8000

deriving instance DecidableEq for Except

namespace GitWmem

/-- Git file modes (go-git `filemode`). -/
inductive FMode where
  | regular
  | executable
  | symlink
  | dir
  | submodule
  deriving DecidableEq, Repr

/-- A commit signature (go-git `object.Signature`): name, email and
timestamp (seconds). -/
structure Sig where
  name : String
  email : String
  time : Int
  deriving DecidableEq, Repr

/-- Git object payloads.  Children are referenced by hash (a `String`),
exactly as go-git tree and commit objects reference blobs, subtrees and
parents by `plumbing.Hash`. -/
inductive ObjData where
  | blob (content : String)
  | tree (entries : List (String × FMode × String))
  | commit (treeHash : String) (parents : List String) (author : Sig)
      (committer : Sig) (message : String)
  deriving DecidableEq, Repr

/-- Octal mode string used in Git tree encoding. -/
def FMode.code : FMode → String
  | .regular => "100644"
  | .executable => "100755"
  | .symlink => "120000"
  | .dir => "40000"
  | .submodule => "160000"

def serializeEntries : List (String × FMode × String) → String
  | [] => ""
  | (n, m, h) :: rest =>
      m.code ++ " " ++ n ++ "\x00" ++ h ++ "\x01" ++ serializeEntries rest

def serializeSig (s : Sig) : String :=
  s.name ++ " <" ++ s.email ++ "> " ++ toString s.time

def serializeParents : List String → String
  | [] => ""
  | p :: rest => "parent " ++ p ++ "\n" ++ serializeParents rest

/-- Canonical serialization of a Git object; stands in for the SHA-1 of the
encoded object.  Distinct serializations model distinct hashes. -/
def serializeObj : ObjData → String
  | .blob c => "blob\x00" ++ c
  | .tree es => "tree\x00" ++ serializeEntries es
  | .commit t ps a c msg =>
      "commit\x00tree " ++ t ++ "\n" ++ serializeParents ps ++
        "author " ++ serializeSig a ++ "\ncommitter " ++ serializeSig c ++
        "\n\n" ++ msg

/-- Association-list lookup (string keys). -/
def lookupA {α : Type} : List (String × α) → String → Option α
  | [], _ => none
  | (k, v) :: rest, key => if k == key then some v else lookupA rest key

/-- Association-list update/insert. -/
def setA {α : Type} : List (String × α) → String → α → List (String × α)
  | [], key, v => [(key, v)]
  | (k, w) :: rest, key, v =>
      if k == key then (k, v) :: rest else (k, w) :: setA rest key v

/-- Association-list removal. -/
def eraseA {α : Type} : List (String × α) → String → List (String × α)
  | [], _ => []
  | (k, w) :: rest, key => if k == key then rest else (k, w) :: eraseA rest key

/-- A Git repository: content-addressed object store, refs (name → commit
hash) and the symbolic HEAD target ref name. -/
structure Repo where
  objects : List (String × ObjData)
  refs : List (String × String)
  headTarget : String
  deriving DecidableEq, Repr

/-- `Storer.SetEncodedObject`: writing an object that already exists is
benign and returns the same hash. -/
def Repo.setEncodedObject (repo : Repo) (data : ObjData) : Repo × String :=
  let h := serializeObj data
  match lookupA repo.objects h with
  | some _ => (repo, h)
  | none => ({ repo with objects := repo.objects ++ [(h, data)] }, h)

/-- `Storer.SetReference` with a hash reference. -/
def Repo.setReference (repo : Repo) (name hash : String) : Repo :=
  { repo with refs := setA repo.refs name hash }

/-- `Repository.Reference(name, resolved)`: `none` models the NotFound
error. -/
def Repo.reference (repo : Repo) (name : String) : Option String :=
  lookupA repo.refs name

/-- `Repository.CommitObject`. -/
def Repo.commitObject (repo : Repo) (h : String) : Option ObjData :=
  match lookupA repo.objects h with
  | some (.commit t ps a c m) => some (.commit t ps a c m)
  | _ => none

/-- `Repository.TreeObject`. -/
def Repo.treeObject (repo : Repo) (h : String) : Option (List (String × FMode × String)) :=
  match lookupA repo.objects h with
  | some (.tree es) => some es
  | _ => none

/-- Tree hash of a commit object (`Commit.TreeHash`). -/
def ObjData.commitTree : ObjData → String
  | .commit t _ _ _ _ => t
  | _ => ""

/-- Parent hashes of a commit object (`Commit.ParentHashes`). -/
def ObjData.commitParents : ObjData → List String
  | .commit _ ps _ _ _ => ps
  | _ => []

/-- Message of a commit object (`Commit.Message`). -/
def ObjData.commitMessage : ObjData → String
  | .commit _ _ _ _ m => m
  | _ => ""

/-- Committer of a commit object (`Commit.Committer`). -/
def ObjData.commitCommitter : ObjData → Sig
  | .commit _ _ _ c _ => c
  | .blob _ => ⟨"", "", 0⟩
  | .tree _ => ⟨"", "", 0⟩

/-! ## Filesystem model

A directory entry as seen by `os.ReadDir` / `filepath.WalkDir`.  A
directory that contains a `.git` entry carries `hasGitHead = some h` (the
HEAD commit hash of the nested repository); the `.git` entry itself is
never listed, matching how the source skips it at every level.  A symlink
records its target string, the file it resolves to (`none` when broken:
the target does not exist), and whether the `0111` bits of its `Lstat`
mode are set. -/
inductive FSEntry where
  | file (content : String) (exec : Bool) (mtime : Int)
  | symlink (target : String) (resolved : Option (String × Bool))
      (permExec : Bool) (mtime : Int)
  | dir (hasGitHead : Option String) (mtime : Int)
      (entries : List (String × FSEntry))

/-- The root of a workdir: its own directory mtime and entries.  The root
always contains `.git` (validated by `validateWorkdirPath`), so the walk's
git root is the workdir root itself. -/
structure Workdir where
  rootMtime : Int
  entries : List (String × FSEntry)

/-! ## String and path helpers (Go standard library behaviour) -/

/-- `strings.HasPrefix` over character lists. -/
def charsHasPrefix : List Char → List Char → Bool
  | _, [] => true
  | [], _ :: _ => false
  | c :: cs, p :: ps => c == p && charsHasPrefix cs ps

/-- Go `strings.HasPrefix` (also `filepath.IsAbs` via the `/` prefix on
Unix). -/
def goHasPrefix (s pre : String) : Bool :=
  charsHasPrefix s.data pre.data

/-- Lexicographic order on character lists (Go's `<` on strings compares
bytes; for the ASCII names involved this coincides with code points). -/
def charsLt : List Char → List Char → Bool
  | _, [] => false
  | [], _ :: _ => true
  | c :: cs, d :: ds => c.toNat < d.toNat || (c == d && charsLt cs ds)

/-- Go `<` on strings. -/
def goStringLt (a b : String) : Bool :=
  charsLt a.data b.data

/-- `strings.HasSuffix`. -/
def goHasSuffix (s suf : String) : Bool :=
  charsHasPrefix s.data.reverse suf.data.reverse

/-- `strings.TrimSuffix`. -/
def trimSuffix (s suf : String) : String :=
  if goHasSuffix s suf then ⟨s.data.take (s.data.length - suf.data.length)⟩ else s

/-- `strings.Split` worker over character lists; `fuel` bounds the walk
(any value above the input length suffices, see `goSplit`). -/
def splitCharsF (sep : List Char) : Nat → List Char → List (List Char)
  | _, [] => [[]]
  | 0, l => [l]
  | fuel + 1, c :: cs =>
      if charsHasPrefix (c :: cs) sep then
        [] :: splitCharsF sep fuel ((c :: cs).drop sep.length)
      else
        match splitCharsF sep fuel cs with
        | g :: gs => (c :: g) :: gs
        | [] => [[c]]

/-- Go `strings.Split` for a non-empty separator. -/
def goSplit (s sep : String) : List String :=
  (splitCharsF sep.data (s.data.length + 1) s.data).map (fun l => ⟨l⟩)

/-- `strings.Join`. -/
def goJoin (sep : String) : List String → String
  | [] => ""
  | [s] => s
  | s :: rest => s ++ sep ++ goJoin sep rest

/-- `unicode.IsSpace` restricted to the ASCII whitespace the tool's
configuration files contain. -/
def isSpaceChar (c : Char) : Bool :=
  c == ' ' || c == '\t' || c == '\n' || c == '\r'

/-- `strings.TrimSpace`. -/
def goTrimSpace (s : String) : String :=
  ⟨((s.data.dropWhile isSpaceChar).reverse.dropWhile isSpaceChar).reverse⟩

/-- `filepath.Base` for the slash-separated paths the tool manipulates. -/
def filepathBase (p : String) : String :=
  if p == "" then "."
  else
    match (goSplit p "/").reverse.find? (fun s => s != "") with
    | some s => s
    | none => "/"

/-- `filepath.Clean` for slash-separated paths (lexical processing). -/
def filepathClean (p : String) : String :=
  if p == "" then "."
  else
    let rooted := goHasPrefix p "/"
    let comps := (goSplit p "/").foldl (fun acc c =>
      if c == "" || c == "." then acc
      else if c == ".." then
        if rooted then acc.dropLast
        else
          match acc.getLast? with
          | some last => if last == ".." then acc ++ [".."] else acc.dropLast
          | none => [".."]
      else acc ++ [c]) ([] : List String)
    let body := goJoin "/" comps
    if rooted then "/" ++ body
    else if body == "" then "." else body

/-- `checkGitignorePatterns` (`part_004`): single root `.gitignore`,
line-by-line; blank lines and `#` lines skipped; a pattern matches when it
equals the path relative to the git root, or, for a trailing-`/` pattern,
is a `/`-prefix of it.  `content = none` models a missing `.gitignore`. -/
def checkGitignorePatterns (content : Option String) (relPath : String) : Bool :=
  match content with
  | none => false
  | some c =>
      (goSplit c "\n").any (fun l =>
        let line := goTrimSpace l
        if line == "" || goHasPrefix line "#" then false
        else
          let pattern := trimSuffix line "/"
          pattern == relPath ||
            (goHasSuffix line "/" && goHasPrefix relPath (pattern ++ "/")))

/-- `isPathIgnored` relative to the workdir root's `.gitignore`: the
root's `.gitignore` file content is read from the root entries. -/
def readRootGitignore (entries : List (String × FSEntry)) : Option String :=
  match lookupA entries ".gitignore" with
  | some (.file c _ _) => some c
  | _ => none

/-! ## Tree builder (`createTreeFromFilesystem`, `createBlobFromFile`) -/

/-- go-git `object.TreeEntrySorter` key: directory entries compare with a
trailing `/` appended. -/
def treeEntryKey : String × FMode × String → String
  | (n, m, _) => if m == FMode.dir then n ++ "/" else n

def insertTreeEntry (e : String × FMode × String) :
    List (String × FMode × String) → List (String × FMode × String)
  | [] => [e]
  | e' :: rest =>
      if goStringLt (treeEntryKey e) (treeEntryKey e') then e :: e' :: rest
      else e' :: insertTreeEntry e rest

/-- `sort.Sort(object.TreeEntrySorter(treeEntries))`. -/
def sortTreeEntries : List (String × FMode × String) → List (String × FMode × String)
  | [] => []
  | e :: rest => insertTreeEntry e (sortTreeEntries rest)

/-- `createBlobFromFile` with the already-read file content
(`os.ReadFile` follows symlinks). -/
def createBlobFromFile (repo : Repo) (content : String) : Repo × String :=
  repo.setEncodedObject (.blob content)

mutual
/-- Body of the `createTreeFromFilesystem` loop for a single directory
entry (after the `.git` skip and gitignore check): nested git directories
become gitlinks, plain directories recurse, broken symlinks are skipped,
and file-like entries become blobs whose content `os.ReadFile` provides
(following symlinks) with the mode derived from the `0111` bits of the
`DirEntry.Info` (lstat) mode. -/
def ctffEntry (repo : Repo) (ignore : Option String) (relPath name : String) :
    FSEntry → Repo × Option (String × FMode × String)
  | .dir (some headHash) _ _ =>
      -- subdirectory containing `.git`: gitlink to the nested HEAD
      (repo, some (name, FMode.submodule, headHash))
  | .dir none _ subEntries =>
      let (repo', tes) := ctffEntries repo ignore relPath subEntries
      let (repo'', subHash) := repo'.setEncodedObject (.tree (sortTreeEntries tes))
      (repo'', some (name, FMode.dir, subHash))
  | .file content exec _ =>
      let (repo', blobHash) := createBlobFromFile repo content
      (repo', some (name, if exec then FMode.executable else FMode.regular, blobHash))
  | .symlink _ none _ _ =>
      -- broken symlink: skipped entirely (isBrokenSymlink)
      (repo, none)
  | .symlink _ (some (targetContent, _)) permExec _ =>
      let (repo', blobHash) := createBlobFromFile repo targetContent
      (repo', some (name, if permExec then FMode.executable else FMode.regular, blobHash))

/-- The `createTreeFromFilesystem` loop over `os.ReadDir` results:
`.git` is skipped, then the gitignore check (relative to the git root),
then the per-entry handling. -/
def ctffEntries (repo : Repo) (ignore : Option String) (relDir : String) :
    List (String × FSEntry) → Repo × List (String × FMode × String)
  | [] => (repo, [])
  | (name, entry) :: rest =>
      if name == ".git" then ctffEntries repo ignore relDir rest
      else
        let relPath := if relDir == "" then name else relDir ++ "/" ++ name
        if checkGitignorePatterns ignore relPath then
          ctffEntries repo ignore relDir rest
        else
          match ctffEntry repo ignore relPath name entry with
          | (repo', some te) =>
              let (repo'', tes) := ctffEntries repo' ignore relDir rest
              (repo'', te :: tes)
          | (repo', none) => ctffEntries repo' ignore relDir rest
end

/-- `createTreeFromFilesystem` on a workdir root: builds and stores the
root tree, returning its hash. -/
def createTreeFromFilesystem (repo : Repo) (wd : Workdir) : Repo × String :=
  let ignore := readRootGitignore wd.entries
  let (repo', tes) := ctffEntries repo ignore "" wd.entries
  repo'.setEncodedObject (.tree (sortTreeEntries tes))

/-! ## Filesystem walks (`filepath.WalkDir` based helpers) -/

/-- Whether a directory entry reports `IsDir` (symlinks do not:
`WalkDir`/`ReadDir` use the lstat type bits). -/
def FSEntry.isDirE : FSEntry → Bool
  | .dir _ _ _ => true
  | _ => false

mutual
/-- One entry of the `getFileListInDirectory` walk: non-directories are
listed by path relative to the root; directories recurse.  The walk enters
nested git repositories (only the `.git` directory itself is skipped). -/
def fileListEntry (relPath : String) : FSEntry → List String
  | .dir _ _ sub => fileListEntries relPath sub
  | _ => [relPath]

def fileListEntries (relDir : String) : List (String × FSEntry) → List String
  | [] => []
  | (name, e) :: rest =>
      let relPath := if relDir == "" then name else relDir ++ "/" ++ name
      (if name == ".git" && e.isDirE then [] else fileListEntry relPath e) ++
        fileListEntries relDir rest
end

/-- `getFileListInDirectory`: all files under the workdir, recursively,
excluding `.git`, as root-relative paths. -/
def getFileListInDirectory (wd : Workdir) : List String :=
  fileListEntries "" wd.entries

mutual
/-- One entry of the `hasFilesNewerThan` walk: directories are skipped
(only file mtimes count) but recursed into; files and symlinks compare
their lstat mtime against `since` minus the 1-second buffer. -/
def newerEntry (since : Int) : FSEntry → Bool
  | .dir _ _ sub => newerEntries since sub
  | .file _ _ m => m > since - 1
  | .symlink _ _ _ m => m > since - 1

def newerEntries (since : Int) : List (String × FSEntry) → Bool
  | [] => false
  | (name, e) :: rest =>
      (if name == ".git" && e.isDirE then false else newerEntry since e) ||
        newerEntries since rest
end

/-- `hasFilesNewerThan`: any file strictly newer than `since.Add(-1s)`. -/
def hasFilesNewerThan (wd : Workdir) (since : Int) : Bool :=
  newerEntries since wd.entries

/-- What `os.Stat` reports for a path inside the workdir, `none` modelling
`IsNotExist`.  `os.Stat` follows symlinks, so `isSymlink` is never set for
a path that resolves and a broken symlink reports not-exist; `content` is
what `os.ReadFile` (which also follows symlinks) would return. -/
structure StatInfo where
  isDir : Bool
  isSymlink : Bool
  exec : Bool
  content : String
  deriving DecidableEq, Repr

def statEntry : FSEntry → Option StatInfo
  | .file c e _ => some ⟨false, false, e, c⟩
  | .symlink _ none _ _ => none
  | .symlink _ (some (c, e)) _ _ => some ⟨false, false, e, c⟩
  | .dir _ _ _ => some ⟨true, false, false, ""⟩

def resolvePath (entries : List (String × FSEntry)) : List String → Option FSEntry
  | [] => none
  | [seg] => lookupA entries seg
  | seg :: rest =>
      match lookupA entries seg with
      | some (.dir _ _ sub) => resolvePath sub rest
      | _ => none

/-- `os.Stat(filepath.Join(workdir, relPath))`. -/
def statFS (wd : Workdir) (relPath : String) : Option StatInfo :=
  match resolvePath wd.entries (goSplit relPath "/") with
  | none => none
  | some e => statEntry e

/-! ## Store walks (fuel-bounded recursion through the object store) -/

/-- go-git `Tree.Files()`: depth-first enumeration of all file entries
(modes for which `filemode.IsFile` holds: regular, executable, symlink)
with their full slash-separated paths; gitlink (submodule) entries are not
files and are skipped.  `none` models a missing object or exhausted
fuel. -/
def treeFilesGo : Nat → Repo → String → List (String × FMode × String) →
    Option (List (String × FMode × String))
  | 0, _, _, _ => none
  | _ + 1, _, _, [] => some []
  | fuel + 1, repo, pre, (n, m, h) :: rest =>
      let full := if pre == "" then n else pre ++ "/" ++ n
      match m with
      | .dir =>
          match repo.treeObject h with
          | none => none
          | some sub =>
              match treeFilesGo fuel repo full sub, treeFilesGo fuel repo pre rest with
              | some a, some b => some (a ++ b)
              | _, _ => none
      | .submodule => treeFilesGo fuel repo pre rest
      | _ =>
          match treeFilesGo fuel repo pre rest with
          | some b => some ((full, m, h) :: b)
          | none => none

/-- `Tree.Files()` for the tree of a commit hash. -/
def treeFilesOfTree (fuel : Nat) (repo : Repo) (treeHash : String) :
    Option (List (String × FMode × String)) :=
  match repo.treeObject treeHash with
  | none => none
  | some es => treeFilesGo fuel repo "" es

/-- go-git `Commit.IsAncestor`: reachability through parent hashes. -/
def isAncestorOfF : Nat → Repo → String → String → Bool
  | 0, _, _, _ => false
  | fuel + 1, repo, a, b =>
      match repo.commitObject b with
      | some c => c.commitParents.any (fun p => a == p || isAncestorOfF fuel repo a p)
      | none => false

/-- `isCommitMerged`: equal hashes count as merged, otherwise ancestry of
`commitHash` in `targetHash`'s history is checked. -/
def isCommitMerged (fuel : Nat) (repo : Repo) (commitHash targetHash : String) :
    Except String Bool :=
  if commitHash == targetHash then .ok true
  else
    match repo.commitObject targetHash with
    | none => .error "failed to get target commit"
    | some _ =>
        match repo.commitObject commitHash with
        | none => .error "failed to get commit to check"
        | some _ => .ok (isAncestorOfF fuel repo commitHash targetHash)

/-! ## Commit information (`readCommitInfo`, `parseSignature`) -/

/-- `CommitInfo` from `types.go`. -/
structure CommitInfo where
  wmemUID : String
  message : String
  author : String
  committer : String
  deriving DecidableEq, Repr

/-- `parseSignature`: splits on `" <"`, requiring exactly two parts; the
signature's `When` field is `time.Now()`, passed in as `now`. -/
def parseSignature (now : Int) (sigStr : String) : Except String Sig :=
  match goSplit sigStr " <" with
  | [name, rest] => .ok ⟨name, trimSuffix rest ">", now⟩
  | _ => .error ("invalid signature format: " ++ sigStr)

/-- `parseCommitSignatures`. -/
def parseCommitSignatures (now : Int) (info : CommitInfo) : Except String (Sig × Sig) :=
  match parseSignature now info.author with
  | .error e => .error ("failed to parse author: " ++ e)
  | .ok a =>
      match parseSignature now info.committer with
      | .error e => .error ("failed to parse committer: " ++ e)
      | .ok c => .ok (a, c)

/-- `readCommitInfo`: the three `md/commit/` files as optional contents
(`none` = unreadable), plus the freshly generated wmem-uid.  Note that no
emptiness check is performed here: empty author or committer files yield
empty trimmed strings without error. -/
def readCommitInfo (uid : String) (msgPrefix author committer : Option String) :
    Except String CommitInfo :=
  match msgPrefix with
  | none => .error "failed to read msg-prefix"
  | some mp =>
      match author with
      | none => .error "failed to read author"
      | some a =>
          match committer with
          | none => .error "failed to read committer"
          | some c =>
              let message := goTrimSpace mp
              let message := if message != "" then message ++ "\n\n" else message
              let message := message ++ "wmem-uid: " ++ uid
              .ok ⟨uid, message, goTrimSpace a, goTrimSpace c⟩

/-! ## Per-workdir environment

Bundles the state `checkWorkdirInParallel` and its callees read and
write: the workdir's filesystem, its own repository (HEAD hash and object
store), the companion bare store, the persisted mtime checkpoint, plus
oracles for the two external library calls (`Worktree.Status` and
`Remote.Fetch`). -/
structure WdEnv where
  path : String
  branch : String
  wd : Workdir
  headHash : String
  wdObjects : List (String × ObjData)
  statusClean : Bool
  fetchOk : Bool
  checkpoint : Option Int
  bare : Repo

/-- Ref name of the meta-branch for the workdir's current branch. -/
def wmemBranchRef (branch : String) : String :=
  "refs/heads/wmem-br/" ++ branch

/-- Ref name of the head tracker. -/
def wmemHeadRef : String := "refs/heads/wmem-br/head"

/-! ## Deletion detection (`cache.go`, `optimization.go`) -/

/-- `getTrackedFilesFromWmemTree`: file paths of the meta-branch tip's
tree.  (The per-process wmem-tree cache is empty in a fresh invocation and
is not modelled.) -/
def getTrackedFilesFromWmemTree (fuel : Nat) (env : WdEnv) : Except String (List String) :=
  match env.bare.reference (wmemBranchRef env.branch) with
  | none => .error "failed to get wmem branch reference"
  | some tipHash =>
      match env.bare.commitObject tipHash with
      | none => .error "failed to get wmem commit"
      | some c =>
          match treeFilesOfTree fuel env.bare c.commitTree with
          | none => .error "failed to iterate wmem tree files"
          | some files => .ok (files.map (fun f => f.1))

/-- `hasFilesDeletedUsingDirectoryMtime`: compares the workdir root's
mtime against the persisted checkpoint; if unchanged, concludes "no
deletions" without looking at any file.  Otherwise (or with no
checkpoint) it either takes the old-directory shortcut or enumerates the
current file list against the tip's tracked files, and in both of those
cases persists the current root mtime.  (The in-memory directory-state
and file-list caches are empty in a fresh invocation and not modelled.) -/
def hasFilesDeletedUsingDirectoryMtime (fuel : Nat) (now : Int) (env : WdEnv) :
    Except String (WdEnv × Bool) :=
  let m := env.wd.rootMtime
  let scan : Except String (WdEnv × Bool) :=
    if m < now - 3600 then
      -- directory older than one hour: assume no recent deletions,
      -- but still save the mtime checkpoint for the next run
      .ok ({ env with checkpoint := some m }, false)
    else
      let currentFiles := getFileListInDirectory env.wd
      match getTrackedFilesFromWmemTree fuel env with
      | .error e => .error e
      | .ok previousFiles =>
          let hasDeletedFiles := previousFiles.any (fun f => !(currentFiles.contains f))
          .ok ({ env with checkpoint := some m }, hasDeletedFiles)
  match env.checkpoint with
  | some lastMtime => if !(m > lastMtime) then .ok (env, false) else scan
  | none => scan

/-- `hasFilesDeletedUsingTreeWalk`: fallback that stats every tracked
file. -/
def hasFilesDeletedUsingTreeWalk (fuel : Nat) (env : WdEnv) : Except String Bool :=
  match env.bare.reference (wmemBranchRef env.branch) with
  | none => .ok false
  | some tipHash =>
      match env.bare.commitObject tipHash with
      | none => .error "failed to get wmem commit"
      | some c =>
          match treeFilesOfTree fuel env.bare c.commitTree with
          | none => .error "failed to iterate files"
          | some files =>
              .ok (files.any (fun f => (statFS env.wd f.1).isNone))

/-- `hasFilesDeletedSinceLastWmemCommit`: directory-mtime approach first,
tree walk as fallback on error. -/
def hasFilesDeletedSinceLastWmemCommit (fuel : Nat) (now : Int) (env : WdEnv) :
    Except String (WdEnv × Bool) :=
  match hasFilesDeletedUsingDirectoryMtime fuel now env with
  | .ok r => .ok r
  | .error _ =>
      match hasFilesDeletedUsingTreeWalk fuel env with
      | .ok b => .ok (env, b)
      | .error e => .error e

/-- `getLastWmemCommitTime`: committer timestamp of the meta-branch tip. -/
def getLastWmemCommitTime (env : WdEnv) : Except String Int :=
  match env.bare.reference (wmemBranchRef env.branch) with
  | none => .error "failed to get wmem branch reference"
  | some tipHash =>
      match env.bare.commitObject tipHash with
      | none => .error "failed to get wmem commit"
      | some c => .ok c.commitCommitter.time

/-- `hasFilesNewerThanLastWmemCommit`: true if any file is newer than the
last wmem commit (1-second tolerance) or any tracked file is missing. -/
def hasFilesNewerThanLastWmemCommit (fuel : Nat) (now : Int) (env : WdEnv) :
    Except String (WdEnv × Bool) :=
  match getLastWmemCommitTime env with
  | .error e => .error e
  | .ok lastCommitTime =>
      if hasFilesNewerThan env.wd lastCommitTime then .ok (env, true)
      else hasFilesDeletedSinceLastWmemCommit fuel now env

/-! ## Remaining change-detection steps (`part_004`) -/

/-- `hasWorkingDirectoryChanges`: go-git `Worktree.Status().IsClean()`
oracle. -/
def hasWorkingDirectoryChanges (env : WdEnv) : Bool :=
  !env.statusClean

/-- `isHeadUnchangedSinceLastWmemCommit`. -/
def isHeadUnchangedSinceLastWmemCommit (env : WdEnv) : Except String Bool :=
  match env.bare.reference (wmemBranchRef env.branch) with
  | none => .ok false
  | some tipHash =>
      match env.bare.commitObject tipHash with
      | none => .error "failed to get wmem commit"
      | some c =>
          if c.commitMessage == "Commit from workdir: " ++ env.headHash then .ok true
          else .ok (c.commitParents.contains env.headHash)

/-- Commits reachable from the queue through parent edges (the underlying
set walked by `object.NewCommitIterCTime`). -/
def reachableFrom (objs : List (String × ObjData)) :
    Nat → List String → List String → List String
  | 0, _, visited => visited
  | _ + 1, [], visited => visited
  | fuel + 1, h :: queue, visited =>
      if visited.contains h then reachableFrom objs fuel queue visited
      else
        match lookupA objs h with
        | some (.commit _ ps _ _ _) => reachableFrom objs fuel (queue ++ ps) (visited ++ [h])
        | _ => reachableFrom objs fuel queue visited

/-- Committer time of a commit hash in a plain object list. -/
def commitTimeOf (objs : List (String × ObjData)) (h : String) : Int :=
  match lookupA objs h with
  | some c => c.commitCommitter.time
  | none => 0

def insertByCTimeDesc (objs : List (String × ObjData)) (h : String) :
    List String → List String
  | [] => [h]
  | h' :: rest =>
      if commitTimeOf objs h > commitTimeOf objs h' then h :: h' :: rest
      else h' :: insertByCTimeDesc objs h rest

/-- Commit-time-descending order used by `object.NewCommitIterCTime`. -/
def sortByCTimeDesc (objs : List (String × ObjData)) : List String → List String
  | [] => []
  | h :: rest => insertByCTimeDesc objs h (sortByCTimeDesc objs rest)

/-- `findLastMergeCommit`: most recent commit (committer-time order) in
the history of `startHash` with exactly two parents. -/
def findLastMergeCommit (fuel : Nat) (objs : List (String × ObjData)) (startHash : String) :
    Except String String :=
  match lookupA objs startHash with
  | none => .error "failed to get start commit"
  | some _ =>
      let commits := sortByCTimeDesc objs (reachableFrom objs fuel [startHash] [])
      match commits.find? (fun h =>
          match lookupA objs h with
          | some (.commit _ ps _ _ _) => ps.length == 2
          | _ => false) with
      | some h => .ok h
      | none => .error "no merge commit found in branch history"

/-- File entry (mode and blob hash) of a tree at a path, through a file
listing. -/
def fileAt (files : List (String × FMode × String)) (p : String) : Option (FMode × String) :=
  match files.find? (fun f => f.1 == p) with
  | some (_, m, h) => some (m, h)
  | none => none

/-- `getTouchedFilesSinceMerge`: the paths differing between the last
merge commit's tree and HEAD's tree (go-git `Tree.Diff`; plain tree diff
reports per-path additions, deletions and modifications, so the result is
each differing path once). -/
def getTouchedFilesSinceMerge (fuel : Nat) (env : WdEnv) (lastMergeHash : String) :
    Except String (List String) :=
  let wdRepo : Repo := ⟨env.wdObjects, [], ""⟩
  match wdRepo.commitObject env.headHash with
  | none => .error "failed to get HEAD commit"
  | some headC =>
      match wdRepo.commitObject lastMergeHash with
      | none => .error "failed to get last merge commit"
      | some mergeC =>
          match treeFilesOfTree fuel wdRepo headC.commitTree,
              treeFilesOfTree fuel wdRepo mergeC.commitTree with
          | some headFiles, some mergeFiles =>
              let paths := (mergeFiles.map (fun f => f.1)) ++
                (headFiles.map (fun f => f.1)).filter
                  (fun p => !((mergeFiles.map (fun f => f.1)).contains p))
              .ok (paths.filter (fun p => fileAt mergeFiles p != fileAt headFiles p))
          | _, _ => .error "failed to get tree diff"

/-! ## `createTreeFromTouchedFiles` -/

/-- `createTreeFromTouchedFiles`: starts from the flat `Files()`
enumeration of the base tree, keyed by full path but with each entry's
`Name` set to `filepath.Base` of the path; updates or deletes the touched
paths from the live filesystem; then writes a single tree of the remaining
entries sorted by plain `Name`.  (The branch testing
`fileInfo.Mode()&os.ModeSymlink` is dead code — `fileInfo` comes from
`os.Stat`, which follows symlinks — and has no model.  Go's map iteration
order is unspecified; the model keeps insertion order before the sort,
which fixes the same result whenever base names are distinct.) -/
def touchedLoop (wd : Workdir) (repo : Repo)
    (entries : List (String × (String × FMode × String))) :
    List String → Except String (Repo × List (String × (String × FMode × String)))
  | [] => .ok (repo, entries)
  | filename :: rest =>
      match statFS wd filename with
      | none =>
          -- file was deleted, remove from entries
          touchedLoop wd repo (eraseA entries filename) rest
      | some st =>
          if st.isDir then touchedLoop wd repo entries rest
          else
            let (repo', blobHash) := repo.setEncodedObject (.blob st.content)
            let mode := if st.exec then FMode.executable else FMode.regular
            touchedLoop wd repo'
              (setA entries filename (filepathBase filename, mode, blobHash)) rest

def insertByName (e : String × FMode × String) :
    List (String × FMode × String) → List (String × FMode × String)
  | [] => [e]
  | e' :: rest =>
      if goStringLt e.1 e'.1 then e :: e' :: rest else e' :: insertByName e rest

/-- `sort.Slice(treeEntries, ...Name < Name)`: plain name sort (not the
Git tree order). -/
def sortByName : List (String × FMode × String) → List (String × FMode × String)
  | [] => []
  | e :: rest => insertByName e (sortByName rest)

def createTreeFromTouchedFiles (fuel : Nat) (repo : Repo) (wd : Workdir)
    (touchedFiles : List String) (baseTreeHash : String) :
    Except String (Repo × String) :=
  match repo.treeObject baseTreeHash with
  | none => .error "failed to get base tree"
  | some baseTreeEntries =>
      match treeFilesGo fuel repo "" baseTreeEntries with
      | none => .error "failed to enumerate base tree files"
      | some files =>
          let baseEntries := files.map (fun f => (f.1, (filepathBase f.1, f.2.1, f.2.2)))
          match touchedLoop wd repo baseEntries touchedFiles with
          | .error e => .error e
          | .ok (repo', entries) =>
              let treeEntries := sortByName (entries.map (fun e => e.2))
              .ok (repo'.setEncodedObject (.tree treeEntries))

/-! ## `checkModifiedFiles` (step 6 of sync-workdir) -/

/-- The full-comparison fallback of `checkModifiedFiles` (after the early
exits): tree of the meta-branch tip versus a prospective tree built either
from touched files (when a merge commit exists in the workdir history) or
from the full filesystem.  (The touched-files and tree-hash caches are
empty in a fresh invocation and not modelled.) -/
def checkModifiedFilesFull (fuel : Nat) (env : WdEnv) : Except String (WdEnv × Bool) :=
  match env.bare.reference (wmemBranchRef env.branch) with
  | none => .error "failed to get wmem branch reference"
  | some tipHash =>
      match env.bare.commitObject tipHash with
      | none => .error "failed to get wmem commit"
      | some wmemCommit =>
          match findLastMergeCommit fuel env.wdObjects env.headHash with
          | .error _ =>
              -- no merge commit found: full tree creation
              let (bare', currentTreeHash) := createTreeFromFilesystem env.bare env.wd
              .ok ({ env with bare := bare' }, currentTreeHash != wmemCommit.commitTree)
          | .ok lastMergeHash =>
              match getTouchedFilesSinceMerge fuel env lastMergeHash with
              | .error e => .error e
              | .ok touchedFiles =>
                  if touchedFiles.isEmpty then .ok (env, false)
                  else
                    match createTreeFromTouchedFiles fuel env.bare env.wd touchedFiles
                        wmemCommit.commitTree with
                    | .error e => .error e
                    | .ok (bare', currentTreeHash) =>
                        .ok ({ env with bare := bare' },
                          currentTreeHash != wmemCommit.commitTree)

/-- `checkModifiedFiles`: the tiered cascade.  A timestamp-check error
falls through to the status check; a clean worktree whose HEAD is
unchanged since the last wmem commit concludes "unchanged" without any
tree comparison.  The state component reflects every mutation performed
before a failure, since in Go writes to the bare store and the checkpoint
file persist when a later step errors. -/
def checkModifiedFiles (fuel : Nat) (now : Int) (env : WdEnv) :
    WdEnv × Except String Bool :=
  match hasFilesNewerThanLastWmemCommit fuel now env with
  | .ok (env', false) => (env', .ok false)
  | tsOutcome =>
      let env := match tsOutcome with
        | .ok (env', _) => env'
        | .error _ => env
      let hasCurrentChanges := hasWorkingDirectoryChanges env
      let full : WdEnv × Except String Bool :=
        match checkModifiedFilesFull fuel env with
        | .ok (env', b) => (env', .ok b)
        | .error e => (env, .error e)
      if !hasCurrentChanges then
        match isHeadUnchangedSinceLastWmemCommit env with
        | .ok true => (env, .ok false)
        | _ => full
      else full

/-! ## Sync engine (steps 1-9 of UC: sync-workdir) -/

/-- `FindWorkdirName`: search the name→path map for a path that
`filepath.Clean`-equals the given one.  (Go's map iteration order is
unspecified; well-formed maps hold at most one matching path.) -/
def FindWorkdirName (workdirPath : String) (workdirMap : List (String × String)) :
    Option String :=
  let normalized := filepathClean workdirPath
  (workdirMap.find? (fun nv => filepathClean nv.2 == normalized)).map (fun nv => nv.1)

/-- `ensureWmemBranchExists` (step 2, Alternative 2b): create
`wmem-br/<branch>` at the workdir HEAD when missing. -/
def ensureWmemBranchExists (env : WdEnv) : WdEnv :=
  match env.bare.reference (wmemBranchRef env.branch) with
  | some _ => env
  | none =>
      { env with bare := env.bare.setReference (wmemBranchRef env.branch) env.headHash }

/-- `ensureWmemHeadBranch` (step 3): reads the meta-branch ref and sets
the bare store's symbolic `HEAD` to it.  No other reference is written. -/
def ensureWmemHeadBranch (env : WdEnv) : Except String WdEnv :=
  match env.bare.reference (wmemBranchRef env.branch) with
  | none => .error "failed to get wmem branch reference"
  | some _ =>
      .ok { env with bare := { env.bare with headTarget := wmemBranchRef env.branch } }

/-- Import objects fetched from the workdir remote (content-addressed, so
existing objects are untouched). -/
def mergeObjects : List (String × ObjData) → List (String × ObjData) →
    List (String × ObjData)
  | dst, [] => dst
  | dst, (h, d) :: rest =>
      mergeObjects
        (match lookupA dst h with
         | some _ => dst
         | none => dst ++ [(h, d)]) rest

/-- `fetchLatestChanges` (step 4): fetch from the `wmem-wd` remote;
"already up-to-date" is not an error.  `fetchOk = false` models a fetch
failing for any other reason. -/
def fetchLatestChanges (env : WdEnv) : Except String WdEnv :=
  if env.fetchOk then
    .ok { env with
      bare := { env.bare with objects := mergeObjects env.bare.objects env.wdObjects } }
  else .error "failed to fetch latest changes"

/-- `createWmemMergeCommit` (ALG: wmem merge): a two-parent commit taking
the workdir HEAD's tree verbatim, parents `[meta-branch tip, workdir
HEAD]`, with the documented message followed by a blank line and the
CommitInfo message. -/
def createWmemMergeCommit (repo : Repo) (wmemBranchHash workdirCommitHash branch : String)
    (info : CommitInfo) (author committer : Sig) : Except String (Repo × String) :=
  match repo.commitObject workdirCommitHash with
  | none => .error "failed to get workdir commit"
  | some workdirCommit =>
      let mergeMessage := "Merge workdir '" ++ branch ++ "' into 'wmem-br/" ++ branch ++
        "' accepting workdir's branch tree hash\n\n" ++ info.message
      .ok (repo.setEncodedObject
        (.commit workdirCommit.commitTree [wmemBranchHash, workdirCommitHash]
          author committer mergeMessage))

/-- `ensureWorkdirCommitMerged` (step 5, Alternative 5b): when the workdir
HEAD is not merged into the meta-branch tip, create the merge commit and
advance both `wmem-br/<branch>` and `wmem-br/head` to it.  Returns whether
the HEAD was already merged. -/
def ensureWorkdirCommitMerged (fuel : Nat) (now : Int) (env : WdEnv)
    (info : CommitInfo) : Except String (WdEnv × Bool) :=
  match env.bare.reference (wmemBranchRef env.branch) with
  | none => .error "failed to get wmem branch reference"
  | some tipHash =>
      match isCommitMerged fuel env.bare env.headHash tipHash with
      | .error e => .error ("failed to check if commit is merged: " ++ e)
      | .ok true => .ok (env, true)
      | .ok false =>
          match parseCommitSignatures now info with
          | .error e => .error ("failed to parse commit signatures: " ++ e)
          | .ok (author, committer) =>
              match createWmemMergeCommit env.bare tipHash env.headHash env.branch
                  info author committer with
              | .error e => .error ("failed to create merge commit: " ++ e)
              | .ok (bare', newCommitHash) =>
                  let bare' := bare'.setReference (wmemBranchRef env.branch) newCommitHash
                  let bare' := bare'.setReference wmemHeadRef newCommitHash
                  .ok ({ env with bare := bare' }, false)

/-- Outcome of the parallel check phase for one workdir
(`workdirCheckResult` with no error). -/
structure CheckOk where
  workdirName : String
  branchName : String
  hasModified : Bool
  deriving DecidableEq, Repr

/-- `checkWorkdirInParallel`: steps 1-6 for one workdir.  Mutations made
before a failing step persist in the returned environment, mirroring the
on-disk effects. -/
def checkWorkdirInParallel (fuel : Nat) (now : Int)
    (workdirMap : List (String × String)) (info : CommitInfo) (env : WdEnv) :
    WdEnv × Except String CheckOk :=
  match FindWorkdirName env.path workdirMap with
  | none => (env, .error ("workdir " ++ env.path ++ " not found in workdir map"))
  | some workdirName =>
      -- step 1: the current branch name is env.branch (the workdir HEAD ref)
      let env := ensureWmemBranchExists env
      match ensureWmemHeadBranch env with
      | .error e => (env, .error ("failed to ensure wmem-br/head branch: " ++ e))
      | .ok env =>
          match fetchLatestChanges env with
          | .error e => (env, .error ("failed to fetch latest changes: " ++ e))
          | .ok env =>
              match ensureWorkdirCommitMerged fuel now env info with
              | .error e => (env, .error ("failed to ensure workdir commit merged: " ++ e))
              | .ok (env, _) =>
                  match checkModifiedFiles fuel now env with
                  | (env, .error e) =>
                      (env, .error ("failed to check modified files: " ++ e))
                  | (env, .ok hasModified) =>
                      (env, .ok ⟨workdirName, env.branch, hasModified⟩)

/-- `createRegularCommit`: snapshot commit whose tree is built from the
live filesystem and whose sole parent is the meta-branch tip. -/
def createRegularCommit (repo : Repo) (wmemBranchHash : String) (info : CommitInfo)
    (author committer : Sig) (wd : Workdir) : Repo × String :=
  let (repo', rootTreeHash) := createTreeFromFilesystem repo wd
  repo'.setEncodedObject
    (.commit rootTreeHash [wmemBranchHash] author committer info.message)

/-- `addFilesAndCommit` (steps 7-8): snapshot commit plus advancing the
meta-branch. -/
def addFilesAndCommit (now : Int) (env : WdEnv) (info : CommitInfo) :
    Except String (WdEnv × String) :=
  match env.bare.reference (wmemBranchRef env.branch) with
  | none => .error "failed to get wmem branch reference"
  | some tipHash =>
      match parseCommitSignatures now info with
      | .error e => .error ("failed to parse commit signatures: " ++ e)
      | .ok (author, committer) =>
          let (bare', newCommitHash) :=
            createRegularCommit env.bare tipHash info author committer env.wd
          .ok ({ env with
            bare := bare'.setReference (wmemBranchRef env.branch) newCommitHash },
            newCommitHash)

/-- `updateWmemHeadBranch` (step 9). -/
def updateWmemHeadBranch (env : WdEnv) (newCommitHash : String) : WdEnv :=
  { env with bare := env.bare.setReference wmemHeadRef newCommitHash }

/-- `WorkdirCommitResult` from `types.go`. -/
structure WorkdirCommitResult where
  workdirName : String
  branchName : String
  commitHash : String
  hasChanges : Bool
  deriving DecidableEq, Repr

/-- `commitWorkdirWithChanges` (steps 7-9). -/
def commitWorkdirWithChanges (now : Int) (env : WdEnv)
    (workdirName branchName : String) (info : CommitInfo) :
    Except String (WdEnv × WorkdirCommitResult) :=
  match addFilesAndCommit now env info with
  | .error e => .error ("failed to add files and commit: " ++ e)
  | .ok (env, newCommitHash) =>
      .ok (updateWmemHeadBranch env newCommitHash,
        ⟨workdirName, branchName, newCommitHash, true⟩)

/-! ## Meta-repository environment and the commit coordinator -/

/-- State of the meta-repository and everything one `commit` invocation
touches.  `committedCheckpoints` records, per workdir path, the persisted
mtime checkpoint content as of the last meta commit (`none` = no file),
so the meta worktree is clean with respect to `cache/` exactly when each
workdir's current checkpoint equals its committed copy. -/
structure MetaEnv where
  isWmem : Bool
  workdirPathsFile : Option String
  msgPrefixFile : Option String
  authorFile : Option String
  committerFile : Option String
  workdirMap : List (String × String)
  workdirs : List WdEnv
  committedCheckpoints : List (String × Option Int)
  metaOtherDirty : Bool
  metaCommits : Nat

def findWdEnv (m : MetaEnv) (path : String) : Option WdEnv :=
  m.workdirs.find? (fun e => e.path == path)

def updateWdEnv (m : MetaEnv) (env : WdEnv) : MetaEnv :=
  { m with workdirs := m.workdirs.map (fun e => if e.path == env.path then env else e) }

/-- Committed content of a workdir's checkpoint file (`none` when the
file did not exist at the last meta commit). -/
def committedCheckpointOf (m : MetaEnv) (path : String) : Option Int :=
  match lookupA m.committedCheckpoints path with
  | some v => v
  | none => none

/-- `hasWmemRepoMetadataChanges`: uncommitted changes in the meta
worktree (`Worktree.Status().IsClean()`), which include newly written or
updated checkpoint files under `cache/`. -/
def hasWmemRepoMetadataChanges (m : MetaEnv) : Bool :=
  m.metaOtherDirty ||
    m.workdirs.any (fun e => e.checkpoint != committedCheckpointOf m e.path)

/-- `createWmemCommit`: stages everything (`Add(".")`, which includes the
`cache/` checkpoints) and creates one summary commit, empty commits
allowed.  The summary message content is immaterial to the claims; only
the commit's existence is tracked. -/
def createWmemCommit (now : Int) (info : CommitInfo) (m : MetaEnv) :
    Except String MetaEnv :=
  match parseSignature now info.author with
  | .error e => .error ("failed to parse author: " ++ e)
  | .ok _ =>
      match parseSignature now info.committer with
      | .error e => .error ("failed to parse committer: " ++ e)
      | .ok _ =>
          .ok { m with
            metaCommits := m.metaCommits + 1,
            committedCheckpoints := m.workdirs.map (fun e => (e.path, e.checkpoint)),
            metaOtherDirty := false }

/-- Phase 1 of `commitAll`: run `checkWorkdirInParallel` for every
configured path.  In Go the checks are fanned out concurrently, but each
one reads and writes only its own workdir's state (and fresh-process
caches), so a left-to-right pass yields the same per-workdir results. -/
def runWorkdirChecks (fuel : Nat) (now : Int) (workdirMap : List (String × String))
    (info : CommitInfo) (m : MetaEnv) :
    List String → MetaEnv × List (String × Except String CheckOk)
  | [] => (m, [])
  | p :: rest =>
      match findWdEnv m p with
      | none =>
          let (m', rs) := runWorkdirChecks fuel now workdirMap info m rest
          (m', (p, .error "failed to open workdir repository") :: rs)
      | some env =>
          match checkWorkdirInParallel fuel now workdirMap info env with
          | (env', .error e) =>
              let (m', rs) :=
                runWorkdirChecks fuel now workdirMap info (updateWdEnv m env') rest
              (m', (p, .error e) :: rs)
          | (env', .ok ck) =>
              let (m', rs) :=
                runWorkdirChecks fuel now workdirMap info (updateWdEnv m env') rest
              (m', (p, .ok ck) :: rs)

/-- Phase 2 of `commitAll`: sequentially commit the workdirs reported
changed; a check error or commit error aborts immediately.  Snapshot
commits already written for earlier workdirs remain in the returned
state, as they do on disk. -/
def processCheckResults (now : Int) (info : CommitInfo) (m : MetaEnv) :
    List (String × Except String CheckOk) →
    MetaEnv × Except String (List WorkdirCommitResult)
  | [] => (m, .ok [])
  | (p, .error e) :: _ => (m, .error ("failed to check workdir " ++ p ++ ": " ++ e))
  | (p, .ok ck) :: rest =>
      if !ck.hasModified then
        match processCheckResults now info m rest with
        | (m', .error e) => (m', .error e)
        | (m', .ok rs) => (m', .ok (⟨ck.workdirName, ck.branchName, "", false⟩ :: rs))
      else
        match findWdEnv m p with
        | none => (m, .error ("failed to commit workdir " ++ p))
        | some env =>
            match commitWorkdirWithChanges now env ck.workdirName ck.branchName info with
            | .error e => (m, .error ("failed to commit workdir " ++ p ++ ": " ++ e))
            | .ok (env', r) =>
                match processCheckResults now info (updateWdEnv m env') rest with
                | (m', .error e) => (m', .error e)
                | (m', .ok rs) => (m', .ok (r :: rs))

/-- `countChangedWorkdirs`. -/
def countChangedWorkdirs (rs : List WorkdirCommitResult) : Nat :=
  (rs.filter (fun r => r.hasChanges)).length

/-- `commitAll`: the whole commit-all sub-operation.  The returned state
reflects all mutations performed before any failure. -/
def commitAll (fuel : Nat) (now : Int) (uid : String) (workdirPaths : List String)
    (m : MetaEnv) : MetaEnv × Except String Unit :=
  match readCommitInfo uid m.msgPrefixFile m.authorFile m.committerFile with
  | .error e => (m, .error ("failed to read commit info: " ++ e))
  | .ok info =>
      let (m, checkResults) := runWorkdirChecks fuel now m.workdirMap info m workdirPaths
      match processCheckResults now info m checkResults with
      | (m, .error e) => (m, .error e)
      | (m, .ok workdirResults) =>
          let hasAnyChanges := workdirResults.any (fun r => r.hasChanges)
          if hasAnyChanges then
            match createWmemCommit now info m with
            | .error e => (m, .error ("failed to create wmem commit: " ++ e))
            | .ok m' => (m', .ok ())
          else if hasWmemRepoMetadataChanges m then
            match createWmemCommit now info m with
            | .error e => (m, .error ("failed to create wmem commit: " ++ e))
            | .ok m' => (m', .ok ())
          else (m, .ok ())

/-! ## Configuration reading and path validation (`workdir.go`) -/

/-- `readWorkdirPaths`: a missing `md/commit-workdir-paths` file is
indistinguishable from an empty one (`os.IsNotExist` yields an empty
list without error); otherwise trimmed non-blank lines. -/
def readWorkdirPaths (content : Option String) : Except String (List String) :=
  match content with
  | none => .ok []
  | some c =>
      .ok ((goSplit (goTrimSpace c) "\n").map (fun l => goTrimSpace l) |>.filter (fun l => l != ""))

/-- The loop in `validateWorkdirPath` detecting a `..` segment after any
non-`..`, non-empty segment. -/
def dotDotStep (st : Bool × Bool) (seg : String) : Bool × Bool :=
  if seg == ".." then (st.1, st.2 || st.1)
  else if seg != "" then (true, st.2)
  else st

def dotDotAfterNonDotDot (p : String) : Bool :=
  ((goSplit p "/").foldl dotDotStep (false, false)).2

/-- Filesystem facts `validateWorkdirPath` queries about a configured
path: its absolute resolution, whether it exists, is a directory, and
contains a `.git` entry. -/
structure PathInfo where
  absPath : String
  pathExists : Bool
  isDir : Bool
  hasGit : Bool
  deriving DecidableEq, Repr

/-- `validateWorkdirPath`: textual checks on the raw path (before any
normalization), then filesystem checks, then the meta-repo prefix
check.  `cwd` is the meta-repository root (the process working
directory). -/
def validateWorkdirPath (cwd : String) (p : String) (info : PathInfo) :
    Except String Unit :=
  if goHasPrefix p "/" then .error "Absolute paths not allowed"
  else if p == "." || goHasPrefix p "./" then .error "wmem-repo paths not allowed"
  else if !(goHasPrefix p "../") then .error "Must start with ../"
  else if dotDotAfterNonDotDot p then .error "path traversal not allowed"
  else if !info.pathExists then .error "workdir path not accessible"
  else if !info.isDir then .error "workdir path is not a directory"
  else if !info.hasGit then .error "workdir is not a git repository"
  else if goHasPrefix info.absPath cwd then .error "wmem-repo paths not allowed"
  else .ok ()

/-- `generateWorkdirName`'s suffix search (`-2`, `-3`, ... until unused);
`fuel` bounds the loop, any value above the map size suffices. -/
def pickSuffix (base : String) (map : List (String × String)) :
    Nat → Nat → String
  | 0, counter => base ++ "-" ++ toString counter
  | fuel + 1, counter =>
      let candidate := base ++ "-" ++ toString counter
      if (lookupA map candidate).isSome then pickSuffix base map fuel (counter + 1)
      else candidate

/-- `generateWorkdirName`. -/
def generateWorkdirName (p : String) (map : List (String × String)) : String :=
  let base := filepathBase p
  if (lookupA map base).isSome then pickSuffix base map (map.length + 1) 2
  else base

/-- `createBareRepo`: bare init (go-git's default symbolic HEAD is
`refs/heads/master`), `wmem-wd` remote, initial fetch, and
`wmem-br/<branch>` created at the workdir HEAD. -/
def createBareRepo (env : WdEnv) : Except String WdEnv :=
  if env.fetchOk then
    .ok { env with
      bare := ⟨env.wdObjects, [(wmemBranchRef env.branch, env.headHash)],
        "refs/heads/master"⟩ }
  else .error "failed to fetch from workdir"

/-- `initRepos`: validate every configured path, create bare stores and
map entries for new paths, save the map (`saveWorkdirMap` rewrites
`md-internal/workdir-map.json`; the meta worktree becomes dirty exactly
when the map content changed). -/
def initReposGo (cwd : String) (pathInfos : List (String × PathInfo)) (m : MetaEnv) :
    List String → MetaEnv × Except String Unit
  | [] => (m, .ok ())
  | p :: rest =>
      match lookupA pathInfos p with
      | none => (m, .error ("invalid workdir path " ++ p ++ ": workdir path not accessible"))
      | some info =>
          match validateWorkdirPath cwd p info with
          | .error e => (m, .error ("invalid workdir path " ++ p ++ ": " ++ e))
          | .ok _ =>
              if (FindWorkdirName p m.workdirMap).isSome then
                initReposGo cwd pathInfos m rest
              else
                let workdirName := generateWorkdirName p m.workdirMap
                match findWdEnv m p with
                | none => (m, .error ("failed to create bare repo for " ++ p))
                | some env =>
                    match createBareRepo env with
                    | .error e =>
                        (m, .error ("failed to create bare repo for " ++ p ++ ": " ++ e))
                    | .ok env' =>
                        let m' := updateWdEnv m env'
                        let newMap := setA m'.workdirMap workdirName (filepathClean p)
                        initReposGo cwd pathInfos { m' with workdirMap := newMap } rest

def initRepos (cwd : String) (pathInfos : List (String × PathInfo)) (m : MetaEnv)
    (workdirPaths : List String) : MetaEnv × Except String Unit :=
  match initReposGo cwd pathInfos m workdirPaths with
  | (m', .error e) => (m', .error e)
  | (m', .ok _) =>
      ({ m' with
        metaOtherDirty := m'.metaOtherDirty || (m'.workdirMap != m.workdirMap) }, .ok ())

/-- `CommitWmem`: the public commit operation. -/
def CommitWmem (fuel : Nat) (now : Int) (uid cwd : String)
    (pathInfos : List (String × PathInfo)) (m : MetaEnv) :
    MetaEnv × Except String Unit :=
  if !m.isWmem then
    (m, .error "not in a wmem repository (missing .git-wmem file). Run this command from a wmem-repo directory.")
  else
    match readWorkdirPaths m.workdirPathsFile with
    | .error e => (m, .error ("failed to read workdir paths: " ++ e))
    | .ok workdirPaths =>
        if workdirPaths.isEmpty then
          (m, .error "No workdirs configured for commit. Add paths to your workdirs in md/commit-workdir-paths file.")
        else
          match initRepos cwd pathInfos m workdirPaths with
          | (m', .error e) => (m', .error ("failed to init repos: " ++ e))
          | (m', .ok _) =>
              match commitAll fuel now uid workdirPaths m' with
              | (m'', .error e) => (m'', .error ("failed to commit all: " ++ e))
              | (m'', .ok _) => (m'', .ok ())

/-! ## Concrete fixtures for witnesses and counterexamples -/

/-- A valid signature file content. -/
def exSigText : String := "A <a@x>"

def exSig0 : Sig := ⟨"A", "a@x", 90⟩

def exBlobA : ObjData := .blob "A"

def exHashA : String := serializeObj exBlobA

/-- Tree of the example workdir HEAD commit: a single file `a.txt`. -/
def exTreeW : ObjData := .tree [("a.txt", .regular, exHashA)]

def exHashTreeW : String := serializeObj exTreeW

/-- The example workdir HEAD commit (committed at time 90). -/
def exCommit1 : ObjData := .commit exHashTreeW [] exSig0 exSig0 "init"

def exHash1 : String := serializeObj exCommit1

def exWdObjects : List (String × ObjData) :=
  [(exHash1, exCommit1), (exHashTreeW, exTreeW), (exHashA, exBlobA)]

/-- C6 workdir: `a.txt` tracked, `b.txt` untracked, both mtime 150. -/
def c6Wd : Workdir :=
  ⟨150, [("a.txt", .file "A" false 150), ("b.txt", .file "B" false 150)]⟩

def c6Bare : Repo :=
  ⟨exWdObjects, [(wmemBranchRef "main", exHash1)], "refs/heads/main"⟩

def c6Env : WdEnv :=
  { path := "../proj", branch := "main", wd := c6Wd, headHash := exHash1,
    wdObjects := exWdObjects, statusClean := false, fetchOk := true,
    checkpoint := none, bare := c6Bare }

def c6Meta : MetaEnv :=
  { isWmem := true, workdirPathsFile := some "../proj",
    msgPrefixFile := some "", authorFile := some exSigText,
    committerFile := some exSigText, workdirMap := [("proj", "../proj")],
    workdirs := [c6Env], committedCheckpoints := [("../proj", none)],
    metaOtherDirty := false, metaCommits := 0 }

def c6Run1 : MetaEnv := (commitAll 20 200 "u1" ["../proj"] c6Meta).1

/-- Whether an `Except` value is a success. -/
def exceptOk {ε α : Type} : Except ε α → Bool
  | .ok _ => true
  | .error _ => false

/-- A workdir on which a fresh invocation's change-detection cascade
early-exits at the timestamp step with a current persisted checkpoint,
with nothing left to fetch or merge and the symbolic HEAD already on the
meta-branch: the situation an invocation leaves behind when it processed
the workdir and nothing on disk changed since. -/
def quiescentWd (fuel : Nat) (workdirMap : List (String × String)) (env : WdEnv) : Bool :=
  (FindWorkdirName env.path workdirMap).isSome &&
  decide (env.bare.headTarget = wmemBranchRef env.branch) &&
  env.fetchOk &&
  decide (mergeObjects env.bare.objects env.wdObjects = env.bare.objects) &&
  (match env.bare.reference (wmemBranchRef env.branch) with
   | none => false
   | some tipHash =>
       (match env.bare.commitObject tipHash with
        | none => false
        | some tipC => !hasFilesNewerThan env.wd tipC.commitCommitter.time) &&
       decide (isCommitMerged fuel env.bare env.headHash tipHash = Except.ok true)) &&
  (match env.checkpoint with
   | some v => !(env.wd.rootMtime > v)
   | none => false)

/-- `quiescentWd` for the workdir registered under a configured path. -/
def pathQuiescent (fuel : Nat) (m : MetaEnv) (p : String) : Bool :=
  match findWdEnv m p with
  | none => false
  | some env => quiescentWd fuel m.workdirMap env

/-- Spec-side phrasing of §4.7's textual rule: the raw path contains a
`..` segment after some non-`..`, non-empty segment. -/
def SpecDotDotViolation (p : String) : Prop :=
  ∃ l1 s l2, goSplit p "/" = l1 ++ s :: l2 ∧ s ≠ ".." ∧ s ≠ "" ∧ ".." ∈ l2

/-! C1 fixtures: a prior root tree with a subdirectory `sub/a.txt`, and a
filesystem matching it exactly. -/

def c1Blob : ObjData := .blob "hi"

def c1BlobH : String := serializeObj c1Blob

def c1SubTree : ObjData := .tree [("a.txt", .regular, c1BlobH)]

def c1SubH : String := serializeObj c1SubTree

def c1RootTree : ObjData := .tree [("sub", .dir, c1SubH)]

def c1RootH : String := serializeObj c1RootTree

def c1Repo : Repo :=
  ⟨[(c1BlobH, c1Blob), (c1SubH, c1SubTree), (c1RootH, c1RootTree)], [], ""⟩

def c1Wd : Workdir := ⟨0, [("sub", .dir none 0 [("a.txt", .file "hi" false 0)])]⟩

/-- The flat tree `createTreeFromTouchedFiles` actually builds for the C1
fixture: the nested path collapses to its base name. -/
def c1FlatTree : ObjData := .tree [("a.txt", .regular, c1BlobH)]

/-! C2 fixtures: the meta-branch tip tracks `a.txt`, `sub/f.txt` and
`sub/g.txt`; on disk `sub/f.txt` has been deleted, which changed the
`sub` directory's mtime but not the workdir root's. -/

def c2BlobY : ObjData := .blob "Y"

def c2HashY : String := serializeObj c2BlobY

def c2BlobZ : ObjData := .blob "Z"

def c2HashZ : String := serializeObj c2BlobZ

def c2SubTree : ObjData := .tree [("f.txt", .regular, c2HashY), ("g.txt", .regular, c2HashZ)]

def c2SubH : String := serializeObj c2SubTree

def c2RootTree : ObjData := .tree [("a.txt", .regular, exHashA), ("sub", .dir, c2SubH)]

def c2RootH : String := serializeObj c2RootTree

def c2SigT : Sig := ⟨"A", "a@x", 100⟩

def c2Tip : ObjData := .commit c2RootH [] c2SigT c2SigT "wmem-uid: u0"

def c2TipH : String := serializeObj c2Tip

def c2Objects : List (String × ObjData) :=
  [(c2TipH, c2Tip), (c2RootH, c2RootTree), (c2SubH, c2SubTree),
   (exHashA, exBlobA), (c2HashY, c2BlobY), (c2HashZ, c2BlobZ)]

def c2Wd : Workdir :=
  ⟨40, [("a.txt", .file "A" false 50), ("sub", .dir none 60 [("g.txt", .file "Z" false 50)])]⟩

def c2Env : WdEnv :=
  { path := "../proj", branch := "main", wd := c2Wd, headHash := c2TipH,
    wdObjects := c2Objects, statusClean := true, fetchOk := true,
    checkpoint := some 40,
    bare := ⟨c2Objects, [(wmemBranchRef "main", c2TipH)], "refs/heads/wmem-br/main"⟩ }

/-! C3 witness fixtures: a diverged workdir HEAD that is not an ancestor
of the meta-branch tip. -/

def c3TipSig : Sig := ⟨"A", "a@x", 80⟩

def c3TipCommit : ObjData := .commit exHashTreeW [] c3TipSig c3TipSig "tip"

def c3TipH : String := serializeObj c3TipCommit

def c3Env : WdEnv :=
  { path := "../proj", branch := "main", wd := ⟨0, []⟩, headHash := exHash1,
    wdObjects := exWdObjects, statusClean := true, fetchOk := true,
    checkpoint := none,
    bare := ⟨(c3TipH, c3TipCommit) :: exWdObjects,
      [(wmemBranchRef "main", c3TipH)], "refs/heads/wmem-br/main"⟩ }

def c3Info : CommitInfo := ⟨"u3", "wmem-uid: u3", exSigText, exSigText⟩

/-! C4 fixtures: a bare store with `wmem-br/main` but no `wmem-br/head`. -/

def c4Env : WdEnv :=
  { path := "../proj", branch := "main", wd := ⟨0, []⟩, headHash := exHash1,
    wdObjects := exWdObjects, statusClean := true, fetchOk := true,
    checkpoint := none,
    bare := ⟨exWdObjects, [(wmemBranchRef "main", exHash1)], "refs/heads/main"⟩ }

/-- The bare store after step 3 on `c4Env`: only the symbolic `HEAD`
changed. -/
def c4AfterBare : Repo :=
  { c4Env.bare with headTarget := wmemBranchRef "main" }

/-- Bare store of a per-workdir step outcome (`none` on error). -/
def exceptBareRepo : Except String WdEnv → Option Repo
  | .ok e => some e.bare
  | .error _ => none

/-! C5 fixtures: a workdir with a regular file, a live symlink to it and a
broken symlink.  On Linux a symlink's lstat permission bits are `0777`,
so `permExec` is true. -/

def exBlobHello : ObjData := .blob "hello"

def exHashHello : String := serializeObj exBlobHello

def c5Wd : Workdir :=
  ⟨0, [("broken", .symlink "gone" none true 10),
       ("link", .symlink "target.txt" (some ("hello", false)) true 10),
       ("target.txt", .file "hello" false 10)]⟩

def c5Repo : Repo := ⟨[], [], ""⟩

/-! C7 fixtures: two workdirs; the first has changes, the second's fetch
fails. -/

def c7Env1 : WdEnv := { c6Env with path := "../p1" }

def c7Env2 : WdEnv := { c6Env with path := "../p2", fetchOk := false }

def c7Meta : MetaEnv :=
  { isWmem := true, workdirPathsFile := some "../p1\n../p2",
    msgPrefixFile := some "", authorFile := some exSigText,
    committerFile := some exSigText,
    workdirMap := [("p1", "../p1"), ("p2", "../p2")],
    workdirs := [c7Env1, c7Env2],
    committedCheckpoints := [("../p1", none), ("../p2", none)],
    metaOtherDirty := false, metaCommits := 0 }

def exBlobB : ObjData := .blob "B"

def exHashB : String := serializeObj exBlobB

def exSnapTree : ObjData := .tree [("a.txt", .regular, exHashA), ("b.txt", .regular, exHashB)]

def exSnapTreeH : String := serializeObj exSnapTree

def exSig200 : Sig := ⟨"A", "a@x", 200⟩

/-- The snapshot commit the first workdir receives in the C7 run. -/
def c7SnapCommit : ObjData := .commit exSnapTreeH [exHash1] exSig200 exSig200 "wmem-uid: u"

def c7SnapH : String := serializeObj c7SnapCommit

def c7Run : MetaEnv × Except String Unit := commitAll 20 200 "u" ["../p1", "../p2"] c7Meta

/-! C8 fixtures: empty author and committer files, one quiescent workdir. -/

def c8Meta : MetaEnv :=
  { isWmem := true, workdirPathsFile := some "../proj",
    msgPrefixFile := some "", authorFile := some "", committerFile := some "",
    workdirMap := [("proj", "../proj")], workdirs := [c2Env],
    committedCheckpoints := [("../proj", some 40)],
    metaOtherDirty := false, metaCommits := 0 }

def c8PathInfos : List (String × PathInfo) :=
  [("../proj", ⟨"/home/proj", true, true, true⟩)]

/-! C10 fixture: a meta-repository whose `md/commit-workdir-paths` file
does not exist. -/

def c10Meta : MetaEnv :=
  { isWmem := true, workdirPathsFile := none, msgPrefixFile := some "",
    authorFile := some exSigText, committerFile := some exSigText,
    workdirMap := [], workdirs := [], committedCheckpoints := [],
    metaOtherDirty := false, metaCommits := 0 }

def c6Run2 : MetaEnv := (commitAll 20 300 "u2" ["../proj"] c6Run1).1

/-! ## Claim theorems -/

/-- **C1.** The claim states that `createTreeFromTouchedFiles` produces a
root tree hash identical to a full rebuild of the same directory via
`createTreeFromFilesystem`.  Evaluating both on a workdir holding
`sub/a.txt` (unchanged on disk, listed as the one touched path) refutes
it: the optimized path enumerates the base tree's files keyed by full
path but names each entry `filepath.Base(path)` and emits one flat root
tree — no ancestor re-hashing, gitlinks and ignore rules dropped — so the
result (here the hash of `tree [a.txt]`) differs from the full rebuild's
`tree [sub/]` whenever the directory is nested. -/
theorem touchedFilesTree_differs_from_full_rebuild :
    (createTreeFromFilesystem c1Repo c1Wd).2 = c1RootH ∧
    createTreeFromTouchedFiles 10 c1Repo c1Wd ["sub/a.txt"] c1RootH = .ok (c1Repo, c1SubH) ∧
    c1SubH ≠ c1RootH := by decide

/-- **C4.** Step 3 (`ensureWmemHeadBranch`) sets the bare store's
symbolic `HEAD` to `wmem-br/<branch>` but never creates or updates the
`wmem-br/head` branch, contradicting its own name, the caller's comment
and the use-case document ("Tool ensures `wmem-br/head` branch exists and
points to the current `wmem-br/<current-branch-name>`"): after step 3 on
a store holding only `wmem-br/main`, `wmem-br/head` still does not exist
(`createBareRepo` does not create it either — it is only written by the
step-5 merge path and step 9). -/
theorem ensureWmemHeadBranch_never_creates_head_ref :
    exceptBareRepo (ensureWmemHeadBranch c4Env) = some c4AfterBare ∧
    c4AfterBare.headTarget = wmemBranchRef "main" ∧
    c4AfterBare.reference wmemHeadRef = none ∧
    c4AfterBare.refs = c4Env.bare.refs ∧
    exceptBareRepo (createBareRepo c4Env) =
      some ⟨exWdObjects, [(wmemBranchRef "main", exHash1)], "refs/heads/master"⟩ ∧
    lookupA [(wmemBranchRef "main", exHash1)] wmemHeadRef = none := by decide

/-- **C5.** The claim (and the spec, and the code's own "like `git add
-A` does" comments) requires a live symlink to a file to be recorded with
mode `120000` and a blob containing the link target string.  Evaluating
`createTreeFromFilesystem` on a workdir with `link -> target.txt`
refutes it: `createBlobFromFile` calls `os.ReadFile`, which follows the
link, so the blob holds the target file's content (`"hello"`), and the
mode comes from the `0111` bits of the lstat mode (`0777` for a symlink
on Linux), yielding `100755` — no `120000` entry and no blob
`"target.txt"` exist anywhere in the store.  Broken symlinks are indeed
omitted (the `broken` entry does not appear). -/
theorem symlink_stored_as_target_content_blob :
    (createTreeFromFilesystem c5Repo c5Wd).2 =
      serializeObj (.tree [("link", .executable, exHashHello),
        ("target.txt", .regular, exHashHello)]) ∧
    (createTreeFromFilesystem c5Repo c5Wd).2 ≠
      serializeObj (.tree [("link", .symlink, serializeObj (.blob "target.txt")),
        ("target.txt", .regular, exHashHello)]) ∧
    lookupA (createTreeFromFilesystem c5Repo c5Wd).1.objects
      (serializeObj (.blob "target.txt")) = none := by decide

/-- **C2 counterexample.** A workdir whose only difference from the
meta-branch tip is the deletion of the tracked file `sub/f.txt`: the
deletion changed `sub`'s mtime but not the workdir root's, so with a
current persisted checkpoint the deletion check's root-mtime early return
reports "no deletions", and `checkModifiedFiles` concludes "unchanged"
(`false`) even though the tip's tree and the filesystem genuinely
differ. -/
theorem change_detector_misses_subdir_deletion :
    (checkModifiedFiles 20 200 c2Env).2 = .ok false ∧
    getTrackedFilesFromWmemTree 20 c2Env = .ok ["a.txt", "sub/f.txt", "sub/g.txt"] ∧
    statFS c2Env.wd "sub/f.txt" = none ∧
    (createTreeFromFilesystem c2Env.bare c2Env.wd).2 ≠ c2Tip.commitTree := by decide

/-- **C6 counterexample.** Two back-to-back runs with no filesystem
change in between, where the second run is not a no-op: run 1 commits the
workdir's untracked file but never reaches the deletion check, so the
mtime checkpoint file is first written by run 2's check phase; that write
dirties the meta worktree and run 2 adds a metadata-only summary commit
(meta commits go from 1 to 2), although no bare-store ref moves. -/
theorem second_commit_run_not_noop :
    (commitAll 20 200 "u1" ["../proj"] c6Meta).2 = .ok () ∧
    c6Run1.metaCommits = 1 ∧
    (commitAll 20 300 "u2" ["../proj"] c6Run1).2 = .ok () ∧
    c6Run2.metaCommits = 2 ∧
    c6Run2.workdirs.map (fun e => e.bare.refs) =
      c6Run1.workdirs.map (fun e => e.bare.refs) := by decide

/-- **C7 counterexample.** Two workdirs: the first has changes and is
committed in phase 2; the second's check failed (fetch error), aborting
the invocation.  The meta-store gains no summary commit, but the first
workdir's bare store keeps its freshly written snapshot commit — there is
no rollback, contradicting the claim that no snapshot commit persists
when a later workdir's processing fails. -/
theorem earlier_snapshot_persists_after_later_failure :
    c7Run.2 ≠ .ok () ∧
    c7Run.1.metaCommits = 0 ∧
    c7Run.1.workdirs.map (fun e => (e.path, e.bare.reference (wmemBranchRef "main"))) =
      [("../p1", some c7SnapH), ("../p2", some exHash1)] ∧
    c7SnapH ≠ exHash1 ∧
    lookupA ((c7Run.1.workdirs.map (fun e => e.bare.objects)).headD []) c7SnapH =
      some c7SnapCommit := by decide

/-- **C8 counterexample.** An invocation with an empty author (and
committer) file that succeeds: `readCommitInfo` performs no emptiness
check, and since the only workdir is unchanged and already merged,
`parseSignature` is never reached, so — against the claim — the
empty-signature failure does not occur on every invocation. -/
theorem empty_author_invocation_succeeds :
    c8Meta.authorFile = some "" ∧
    readCommitInfo "u" c8Meta.msgPrefixFile c8Meta.authorFile c8Meta.committerFile =
      .ok ⟨"u", "wmem-uid: u", "", ""⟩ ∧
    (CommitWmem 20 200 "u" "/home/meta" c8PathInfos c8Meta).2 = .ok () ∧
    (CommitWmem 20 200 "u" "/home/meta" c8PathInfos c8Meta).1.metaCommits = 0 := by decide

/-! ## Supporting lemmas -/

theorem charsHasPrefix_nil (l : List Char) : charsHasPrefix l [] = true := by
  cases l <;> rfl

theorem charsHasPrefix_cancel (x u v : List Char) :
    charsHasPrefix (x ++ u) (x ++ v) = charsHasPrefix u v := by
  induction x with
  | nil => rfl
  | cons c cs ih => simp [charsHasPrefix, ih]

theorem charsHasPrefix_extend (p a t : List Char) (h : charsHasPrefix a p = true) :
    charsHasPrefix (a ++ t) p = true := by
  induction p generalizing a with
  | nil => exact charsHasPrefix_nil _
  | cons c cs ih =>
      cases a with
      | nil => simp [charsHasPrefix] at h
      | cons b bs =>
          simp only [charsHasPrefix, Bool.and_eq_true] at h ⊢
          exact ⟨h.1, ih bs h.2⟩

theorem lookupA_setA_self {α : Type} (l : List (String × α)) (k : String) (v : α) :
    lookupA (setA l k v) k = some v := by
  induction l with
  | nil => simp [setA, lookupA]
  | cons kv rest ih =>
      by_cases h : (kv.1 == k) = true
      · simp [setA, lookupA, h]
      · simp [setA, lookupA, h, ih]

theorem lookupA_setA_ne {α : Type} (l : List (String × α)) (k other : String) (v : α)
    (h : (k == other) = false) :
    lookupA (setA l k v) other = lookupA l other := by
  induction l with
  | nil => simp [setA, lookupA, h]
  | cons kv rest ih =>
      by_cases hk : (kv.1 == k) = true
      · have hko : (kv.1 == other) = false := by
          have : kv.1 = k := by simpa using hk
          simpa [this] using h
        simp [setA, lookupA, hk, hko]
      · simp [setA, lookupA, hk, ih]

theorem setEncodedObject_snd (r : Repo) (d : ObjData) :
    (Repo.setEncodedObject r d).2 = serializeObj d := by
  cases hl : lookupA r.objects (serializeObj d) <;> simp [Repo.setEncodedObject, hl]

theorem setEncodedObject_refs (r : Repo) (d : ObjData) :
    (Repo.setEncodedObject r d).1.refs = r.refs := by
  cases hl : lookupA r.objects (serializeObj d) <;> simp [Repo.setEncodedObject, hl]

/-! ## Claim theorems (continued) -/

/-- **C10.** At the public commit interface, a missing
`md/commit-workdir-paths` file is indistinguishable from an empty one:
`readWorkdirPaths` returns an empty list without error, and the
invocation fails with the "No workdirs configured" diagnostic rather than
a file-read error. -/
theorem missing_paths_file_reads_empty
    (fuel : Nat) (now : Int) (uid cwd : String)
    (pathInfos : List (String × PathInfo)) (m : MetaEnv)
    (hMarker : m.isWmem = true) (hFile : m.workdirPathsFile = none) :
    readWorkdirPaths m.workdirPathsFile = .ok [] ∧
    readWorkdirPaths m.workdirPathsFile = readWorkdirPaths (some "") ∧
    (CommitWmem fuel now uid cwd pathInfos m).2 =
      .error "No workdirs configured for commit. Add paths to your workdirs in md/commit-workdir-paths file." := by
  refine ⟨by rw [hFile]; decide, by rw [hFile]; decide, ?_⟩
  simp [CommitWmem, hMarker, hFile, readWorkdirPaths]

theorem missing_paths_file_reads_empty_witness :
    readWorkdirPaths c10Meta.workdirPathsFile = .ok [] ∧
    readWorkdirPaths c10Meta.workdirPathsFile = readWorkdirPaths (some "") ∧
    (CommitWmem 5 0 "u" "/m" [] c10Meta).2 =
      .error "No workdirs configured for commit. Add paths to your workdirs in md/commit-workdir-paths file." :=
  missing_paths_file_reads_empty 5 0 "u" "/m" [] c10Meta (by decide) (by decide)

/-- **C2 (amended).** Every timestamp-based early exit is paired with
deletion detection before concluding unchanged: when
`hasFilesNewerThanLastWmemCommit` reports "no changes", the mtime sweep
found no file newer than the tip's commit time (with the 1-second
tolerance) AND the deletion check also concluded "no deletions".  (That
deletion check is itself root-mtime based and can miss deletions inside
subdirectories — see the counterexample.) -/
theorem timestamp_early_exit_pairs_deletion_detection
    (fuel : Nat) (now lastT : Int) (env env' : WdEnv)
    (hT : getLastWmemCommitTime env = .ok lastT)
    (hExit : hasFilesNewerThanLastWmemCommit fuel now env = .ok (env', false)) :
    hasFilesNewerThan env.wd lastT = false ∧
    hasFilesDeletedSinceLastWmemCommit fuel now env = .ok (env', false) := by
  unfold hasFilesNewerThanLastWmemCommit at hExit
  rw [hT] at hExit
  cases hN : hasFilesNewerThan env.wd lastT with
  | true => simp [hN] at hExit
  | false =>
      simp [hN] at hExit
      exact ⟨rfl, hExit⟩

theorem timestamp_early_exit_pairs_deletion_detection_witness :
    hasFilesNewerThan c2Env.wd 100 = false ∧
    hasFilesDeletedSinceLastWmemCommit 20 200 c2Env = .ok (c2Env, false) :=
  timestamp_early_exit_pairs_deletion_detection 20 200 100 c2Env c2Env (by decide) rfl

/-- **C8 (amended).** The invocation fails on an empty configured path
list with the "No workdirs configured" diagnostic; an empty author
signature, by contrast, causes a failure only lazily, when a commit is
actually created: `parseSignature` rejects any string lacking `" <"`, so
`addFilesAndCommit` (steps 7-8) fails then — but not on invocations that
never reach a signature parse (see the counterexample). -/
theorem empty_config_failures_are_lazy
    (fuel : Nat) (now : Int) (uid cwd tip : String)
    (pathInfos : List (String × PathInfo)) (m : MetaEnv)
    (env : WdEnv) (info : CommitInfo)
    (hMarker : m.isWmem = true)
    (hEmptyPaths : readWorkdirPaths m.workdirPathsFile = .ok [])
    (hAuthor : info.author = "")
    (hTip : env.bare.reference (wmemBranchRef env.branch) = some tip) :
    (CommitWmem fuel now uid cwd pathInfos m).2 =
      .error "No workdirs configured for commit. Add paths to your workdirs in md/commit-workdir-paths file." ∧
    parseSignature now info.author = .error "invalid signature format: " ∧
    addFilesAndCommit now env info =
      .error "failed to parse commit signatures: failed to parse author: invalid signature format: " := by
  refine ⟨?_, ?_, ?_⟩
  · simp [CommitWmem, hMarker, hEmptyPaths]
  · rw [hAuthor]
    rfl
  · unfold addFilesAndCommit
    rw [hTip]
    unfold parseCommitSignatures
    rw [hAuthor]
    rfl

theorem empty_config_failures_are_lazy_witness :
    (CommitWmem 5 0 "u" "/m" [] c10Meta).2 =
      .error "No workdirs configured for commit. Add paths to your workdirs in md/commit-workdir-paths file." ∧
    parseSignature 0 (CommitInfo.mk "u" "wmem-uid: u" "" "").author =
      .error "invalid signature format: " ∧
    addFilesAndCommit 0 c2Env (CommitInfo.mk "u" "wmem-uid: u" "" "") =
      .error "failed to parse commit signatures: failed to parse author: invalid signature format: " :=
  empty_config_failures_are_lazy 5 0 "u" "/m" c2TipH [] c10Meta c2Env
    (CommitInfo.mk "u" "wmem-uid: u" "" "") (by decide) (by decide) (by decide) (by decide)

/-- The merge message `createWmemMergeCommit` builds for a branch. -/
def mergeMessageFor (branch : String) (info : CommitInfo) : String :=
  "Merge workdir '" ++ branch ++ "' into 'wmem-br/" ++ branch ++
    "' accepting workdir's branch tree hash\n\n" ++ info.message

/-- **C3.** Whenever the workdir HEAD is not merged into the meta-branch
tip (not equal to it and not an ancestor of it), step 5 creates a commit
whose two parents are exactly `[meta-branch tip, workdir HEAD]` in that
order, whose tree hash is the workdir HEAD commit's tree hash verbatim,
and whose message is `Merge workdir '<branch>' into 'wmem-br/<branch>'
accepting workdir's branch tree hash`, a blank line, then the invocation's
CommitInfo message — in particular it begins with
`Merge workdir '<branch>'` — and both `wmem-br/<branch>` and
`wmem-br/head` are advanced to that commit.  (A hash here is the byte
encoding of the object, so the hash equalities pin the commit's exact
contents.) -/
theorem merge_commit_shape
    (fuel : Nat) (now : Int) (env : WdEnv) (info : CommitInfo)
    (tipHash : String) (author committer : Sig) (headC : ObjData)
    (hTip : env.bare.reference (wmemBranchRef env.branch) = some tipHash)
    (hHead : env.bare.commitObject env.headHash = some headC)
    (hNotMerged : isCommitMerged fuel env.bare env.headHash tipHash = .ok false)
    (hSigs : parseCommitSignatures now info = .ok (author, committer)) :
    ∃ env',
      ensureWorkdirCommitMerged fuel now env info = .ok (env', false) ∧
      env'.bare.reference (wmemBranchRef env.branch) =
        some (serializeObj (.commit headC.commitTree [tipHash, env.headHash]
          author committer (mergeMessageFor env.branch info))) ∧
      env'.bare.reference wmemHeadRef =
        some (serializeObj (.commit headC.commitTree [tipHash, env.headHash]
          author committer (mergeMessageFor env.branch info))) ∧
      goHasPrefix (mergeMessageFor env.branch info)
        ("Merge workdir '" ++ env.branch ++ "'") = true := by
  unfold ensureWorkdirCommitMerged createWmemMergeCommit
  rw [hTip]
  simp only [hNotMerged, hHead, hSigs]
  rcases hse : Repo.setEncodedObject env.bare
      (.commit headC.commitTree [tipHash, env.headHash] author committer
        ("Merge workdir '" ++ env.branch ++ "' into 'wmem-br/" ++ env.branch ++
          "' accepting workdir's branch tree hash\n\n" ++ info.message)) with ⟨bare1, newHash⟩
  have hnew : newHash = serializeObj
      (.commit headC.commitTree [tipHash, env.headHash] author committer
        (mergeMessageFor env.branch info)) := by
    have h0 := setEncodedObject_snd env.bare
      (.commit headC.commitTree [tipHash, env.headHash] author committer
        ("Merge workdir '" ++ env.branch ++ "' into 'wmem-br/" ++ env.branch ++
          "' accepting workdir's branch tree hash\n\n" ++ info.message))
    rw [hse] at h0
    exact h0
  refine ⟨{ env with bare := (bare1.setReference (wmemBranchRef env.branch) newHash).setReference wmemHeadRef newHash }, ?_, ?_, ?_, ?_⟩
  · rfl
  · show Repo.reference ((bare1.setReference (wmemBranchRef env.branch) newHash).setReference
        wmemHeadRef newHash) (wmemBranchRef env.branch) = _
    by_cases hb : (wmemHeadRef == wmemBranchRef env.branch) = true
    · have hb' : wmemHeadRef = wmemBranchRef env.branch := by simpa using hb
      simp only [Repo.reference, Repo.setReference, hb']
      rw [lookupA_setA_self, hnew]
    · have hb0 : (wmemHeadRef == wmemBranchRef env.branch) = false := by
        simpa using hb
      simp only [Repo.reference, Repo.setReference]
      rw [lookupA_setA_ne _ _ _ _ hb0, lookupA_setA_self, hnew]
  · show Repo.reference ((bare1.setReference (wmemBranchRef env.branch) newHash).setReference
        wmemHeadRef newHash) wmemHeadRef = _
    simp only [Repo.reference, Repo.setReference]
    rw [lookupA_setA_self, hnew]
  · unfold mergeMessageFor goHasPrefix
    have h1 : ("Merge workdir '" ++ env.branch ++ "' into 'wmem-br/" ++ env.branch ++
        "' accepting workdir's branch tree hash\n\n" ++ info.message).data =
        ("Merge workdir '".data ++ env.branch.data) ++
          ("' into 'wmem-br/".data ++ env.branch.data ++
            "' accepting workdir's branch tree hash\n\n".data ++ info.message.data) := by
      simp [String.data_append]
    have h2 : ("Merge workdir '" ++ env.branch ++ "'").data =
        ("Merge workdir '".data ++ env.branch.data) ++ "'".data := by
      simp [String.data_append]
    rw [h1, h2, charsHasPrefix_cancel]
    exact charsHasPrefix_extend _ _ _
      (charsHasPrefix_extend _ _ _ (charsHasPrefix_extend _ _ _ (by decide)))

theorem merge_commit_shape_witness :
    ∃ env',
      ensureWorkdirCommitMerged 5 200 c3Env c3Info = .ok (env', false) ∧
      env'.bare.reference (wmemBranchRef c3Env.branch) =
        some (serializeObj (.commit exCommit1.commitTree [c3TipH, c3Env.headHash]
          exSig200 exSig200 (mergeMessageFor c3Env.branch c3Info))) ∧
      env'.bare.reference wmemHeadRef =
        some (serializeObj (.commit exCommit1.commitTree [c3TipH, c3Env.headHash]
          exSig200 exSig200 (mergeMessageFor c3Env.branch c3Info))) ∧
      goHasPrefix (mergeMessageFor c3Env.branch c3Info)
        ("Merge workdir '" ++ c3Env.branch ++ "'") = true :=
  merge_commit_shape 5 200 c3Env c3Info c3TipH exSig200 exSig200 exCommit1
    (by decide) (by decide) (by decide) (by decide)

theorem charsHasPrefix_refl (l : List Char) : charsHasPrefix l l = true := by
  induction l with
  | nil => rfl
  | cons c cs ih => simp [charsHasPrefix, ih]

theorem dotDotStep_preserves_viol (st : Bool × Bool) (s : String) (h : st.2 = true) :
    (dotDotStep st s).2 = true := by
  unfold dotDotStep
  by_cases h1 : (s == "..") = true
  · simp [h1, h]
  · by_cases h2 : (s != "") = true <;> simp [h1, h2, h]

theorem dotDotStep_keeps_found (st : Bool × Bool) (s : String) (h : st.1 = true) :
    (dotDotStep st s).1 = true := by
  unfold dotDotStep
  by_cases h1 : (s == "..") = true
  · simp [h1, h]
  · by_cases h2 : (s != "") = true <;> simp [h1, h2, h]

theorem foldl_dotDotStep_viol :
    ∀ (l : List String) (st : Bool × Bool), st.2 = true →
      (l.foldl dotDotStep st).2 = true := by
  intro l
  induction l with
  | nil => intro st h; exact h
  | cons s rest ih =>
      intro st h
      exact ih (dotDotStep st s) (dotDotStep_preserves_viol st s h)

theorem foldl_dotDotStep_found :
    ∀ (l : List String) (st : Bool × Bool), st.1 = true → ".." ∈ l →
      (l.foldl dotDotStep st).2 = true := by
  intro l
  induction l with
  | nil => intro st _ hm; cases hm
  | cons s rest ih =>
      intro st hf hm
      rcases List.mem_cons.mp hm with hs | hs
    -- s is the ".." segment, or it occurs later
      · subst hs
        have : (dotDotStep st "..").2 = true := by
          unfold dotDotStep
          simp [hf]
        exact foldl_dotDotStep_viol rest _ this
      · exact ih (dotDotStep st s) (dotDotStep_keeps_found st s hf) hs

theorem dotDot_of_spec_violation :
    ∀ (l1 : List String) (s : String) (l2 : List String) (st : Bool × Bool),
      s ≠ ".." → s ≠ "" → ".." ∈ l2 →
      ((l1 ++ s :: l2).foldl dotDotStep st).2 = true := by
  intro l1
  induction l1 with
  | nil =>
      intro s l2 st hs1 hs2 hm
      have hstep : (dotDotStep st s).1 = true := by
        unfold dotDotStep
        have h1 : (s == "..") = false := by simpa using hs1
        have h2 : (s != "") = true := by simpa using hs2
        simp [h1, h2]
      exact foldl_dotDotStep_found l2 (dotDotStep st s) hstep hm
  | cons x rest ih =>
      intro s l2 st hs1 hs2 hm
      exact ih s l2 (dotDotStep st x) hs1 hs2 hm

/-- **C9.** `validateWorkdirPath` rejects (returns an error for) every
path in the classes the claim lists, and the textual checks are made on
the raw path string before any normalization (`readWorkdirPaths` passes
lines through untouched and the checks inspect `p` itself).  "Is the
meta-repository or inside it" is rendered as the resolved path being the
process working directory or a `/`-separated descendant of it. -/
theorem validateWorkdirPath_rejects (cwd p : String) (info : PathInfo)
    (h :
      goHasPrefix p "/" = true ∨
      p = "." ∨ goHasPrefix p "./" = true ∨
      goHasPrefix p "../" = false ∨
      SpecDotDotViolation p ∨
      info.pathExists = false ∨
      info.isDir = false ∨
      info.hasGit = false ∨
      info.absPath = cwd ∨ (∃ rest, info.absPath = cwd ++ "/" ++ rest)) :
    ∃ e, validateWorkdirPath cwd p info = .error e := by
  cases hv : validateWorkdirPath cwd p info with
  | error e => exact ⟨e, rfl⟩
  | ok u =>
      exfalso
      unfold validateWorkdirPath at hv
      split_ifs at hv with h1 h2 h3 h4 h5 h6 h7 h8
      rcases h with h' | h' | h' | h' | h' | h' | h' | h' | h' | h'
      · exact h1 h'
      · exact h2 (by simp [h'])
      · exact h2 (by simp [h'])
      · simp [h'] at h3
      · rcases h' with ⟨l1, s, l2, hsplit, hs1, hs2, hmem⟩
        apply h4
        unfold dotDotAfterNonDotDot
        rw [hsplit]
        exact dotDot_of_spec_violation l1 s l2 _ hs1 hs2 hmem
      · simp [h'] at h5
      · simp [h'] at h6
      · simp [h'] at h7
      · apply h8
        rw [h']
        exact charsHasPrefix_refl _
      · rcases h' with ⟨rest, hr⟩
        apply h8
        rw [hr]
        unfold goHasPrefix
        have : (cwd ++ "/" ++ rest).data = cwd.data ++ ("/".data ++ rest.data) := by
          simp [String.data_append]
        rw [this]
        exact charsHasPrefix_extend _ _ _ (charsHasPrefix_refl _)

theorem validateWorkdirPath_rejects_witness :
    ∃ e, validateWorkdirPath "/m" "../a/../b" ⟨"/x", true, true, true⟩ = .error e :=
  validateWorkdirPath_rejects "/m" "../a/../b" ⟨"/x", true, true, true⟩
    (Or.inr (Or.inr (Or.inr (Or.inr (Or.inl
      ⟨[".."], "a", ["..", "b"], by decide, by decide, by decide, by decide⟩)))))

theorem updateWdEnv_metaCommits (m : MetaEnv) (env : WdEnv) :
    (updateWdEnv m env).metaCommits = m.metaCommits := rfl

theorem runWorkdirChecks_metaCommits (fuel : Nat) (now : Int)
    (map : List (String × String)) (info : CommitInfo) :
    ∀ (paths : List String) (m : MetaEnv),
      (runWorkdirChecks fuel now map info m paths).1.metaCommits = m.metaCommits := by
  intro paths
  induction paths with
  | nil => intro m; rfl
  | cons p rest ih =>
      intro m
      unfold runWorkdirChecks
      cases hf : findWdEnv m p with
      | none => simpa using ih m
      | some env =>
          rcases hc : checkWorkdirInParallel fuel now map info env with ⟨env', r⟩
          cases r with
          | error e =>
              simp only [hc]
              simpa using ih (updateWdEnv m env')
          | ok ck =>
              simp only [hc]
              simpa using ih (updateWdEnv m env')

theorem processCheckResults_metaCommits (now : Int) (info : CommitInfo) :
    ∀ (results : List (String × Except String CheckOk)) (m : MetaEnv),
      (processCheckResults now info m results).1.metaCommits = m.metaCommits := by
  intro results
  induction results with
  | nil => intro m; rfl
  | cons r rest ih =>
      intro m
      rcases r with ⟨p, cr⟩
      cases cr with
      | error e => rfl
      | ok ck =>
          unfold processCheckResults
          by_cases hm : (!ck.hasModified) = true
          · rw [if_pos hm]
            rcases hr : processCheckResults now info m rest with ⟨m', rs⟩
            have := ih m
            rw [hr] at this
            cases rs with
            | error e => simpa using this
            | ok v => simpa using this
          · rw [if_neg hm]
            cases hf : findWdEnv m p with
            | none => rfl
            | some env =>
                cases hc : commitWorkdirWithChanges now env ck.workdirName ck.branchName info with
                | error e => simp [hc]
                | ok out =>
                    rcases out with ⟨env', res⟩
                    simp only [hc]
                    rcases hr : processCheckResults now info (updateWdEnv m env') rest with ⟨m', rs⟩
                    have := ih (updateWdEnv m env')
                    rw [hr] at this
                    cases rs with
                    | error e => simpa using this
                    | ok v => simpa using this

/-- **C7 (amended).** Any failure aborts the invocation without a meta
summary commit: whenever `commitAll` does not succeed, the meta-store's
commit count is unchanged.  Moreover phase 2 stops at the first failing
check result, so no workdir after the failing one is processed
(`processCheckResults` returns the state untouched from an error entry
on).  Snapshot commits already written for earlier workdirs persist —
there is no rollback — as the counterexample exhibits. -/
theorem commit_failure_no_meta_commit_and_stops
    (fuel : Nat) (now : Int) (uid : String) (paths : List String) (m : MetaEnv)
    (info : CommitInfo) (p e : String) (rest : List (String × Except String CheckOk))
    (hFail : (commitAll fuel now uid paths m).2 ≠ .ok ()) :
    (commitAll fuel now uid paths m).1.metaCommits = m.metaCommits ∧
    processCheckResults now info m ((p, .error e) :: rest) =
      (m, .error ("failed to check workdir " ++ p ++ ": " ++ e)) := by
  refine ⟨?_, rfl⟩
  unfold commitAll at hFail ⊢
  cases hri : readCommitInfo uid m.msgPrefixFile m.authorFile m.committerFile with
  | error er => simp
  | ok info' =>
      rw [hri] at hFail
      dsimp only at hFail ⊢
      rcases hrc : runWorkdirChecks fuel now m.workdirMap info' m paths with ⟨m1, checks⟩
      have hm1 : m1.metaCommits = m.metaCommits := by
        have := runWorkdirChecks_metaCommits fuel now m.workdirMap info' paths m
        rw [hrc] at this
        exact this
      rw [hrc] at hFail
      dsimp only at hFail ⊢
      rcases hpr : processCheckResults now info' m1 checks with ⟨m2, res⟩
      have hm2 : m2.metaCommits = m1.metaCommits := by
        have := processCheckResults_metaCommits now info' checks m1
        rw [hpr] at this
        exact this
      rw [hpr] at hFail
      cases res with
      | error er => simpa using hm2.trans hm1
      | ok workdirResults =>
          dsimp only at hFail ⊢
          by_cases hAny : (workdirResults.any (fun r => r.hasChanges)) = true
          · rw [if_pos hAny] at hFail ⊢
            cases hcw : createWmemCommit now info' m2 with
            | error er => simpa using hm2.trans hm1
            | ok m3 => simp [hcw] at hFail
          · rw [if_neg hAny] at hFail ⊢
            by_cases hMd : hasWmemRepoMetadataChanges m2 = true
            · rw [if_pos hMd] at hFail ⊢
              cases hcw : createWmemCommit now info' m2 with
              | error er => simpa using hm2.trans hm1
              | ok m3 => simp [hcw] at hFail
            · rw [if_neg hMd] at hFail
              exact absurd rfl hFail

theorem map_keep_of_path_ne (q : String) (x : WdEnv) :
    ∀ (l : List WdEnv), (∀ e ∈ l, e.path ≠ q) →
      l.map (fun e => if e.path == q then x else e) = l := by
  intro l
  induction l with
  | nil => intro _; rfl
  | cons a t ih =>
      intro h
      have hcond : ¬((a.path == q) = true) := by
        simp only [beq_iff_eq]
        exact h a (List.mem_cons_self a t)
      rw [List.map_cons, if_neg hcond, ih (fun e he => h e (List.mem_cons_of_mem a he))]

theorem map_update_eq_self_of_find (p : String) (env : WdEnv) :
    ∀ (l : List WdEnv), l.Pairwise (fun a b => a.path ≠ b.path) →
      l.find? (fun e => e.path == p) = some env →
      l.map (fun e => if e.path == env.path then env else e) = l := by
  intro l
  induction l with
  | nil => intro _ h; cases h
  | cons a t ih =>
      intro hpw hfind
      rw [List.pairwise_cons] at hpw
      obtain ⟨hhead, htail⟩ := hpw
      by_cases hap : (a.path == p) = true
      · rw [@List.find?_cons_of_pos WdEnv (fun e => e.path == p) a t hap] at hfind
        have ha : a = env := by injection hfind
        subst ha
        rw [List.map_cons]
        have hhd : (if a.path == a.path then a else a) = a := by simp
        rw [hhd, map_keep_of_path_ne a.path a t (fun e he h' => (hhead e he) h'.symm)]
      · rw [@List.find?_cons_of_neg WdEnv (fun e => e.path == p) a t hap] at hfind
        have henv : env.path = p := by simpa using List.find?_some hfind
        have hane : ¬((a.path == env.path) = true) := by
          simp only [beq_iff_eq, henv]
          simpa using hap
        rw [List.map_cons, if_neg hane, ih htail hfind]

theorem updateWdEnv_found_self (m : MetaEnv) (p : String) (env : WdEnv)
    (hpw : m.workdirs.Pairwise (fun a b => a.path ≠ b.path))
    (hfind : findWdEnv m p = some env) :
    updateWdEnv m env = m := by
  have hfind' : m.workdirs.find? (fun e => e.path == p) = some env := hfind
  unfold updateWdEnv
  rw [map_update_eq_self_of_find p env m.workdirs hpw hfind']

theorem checkWorkdirInParallel_quiescent (fuel : Nat) (now : Int)
    (workdirMap : List (String × String)) (info : CommitInfo) (env : WdEnv)
    (hq : quiescentWd fuel workdirMap env = true) :
    ∃ name, checkWorkdirInParallel fuel now workdirMap info env =
      (env, .ok ⟨name, env.branch, false⟩) := by
  simp only [quiescentWd, Bool.and_eq_true, decide_eq_true_eq] at hq
  obtain ⟨⟨⟨⟨⟨ha, hb⟩, hc⟩, hd⟩, he⟩, hf⟩ := hq
  obtain ⟨name, hFind⟩ := Option.isSome_iff_exists.mp ha
  cases href : env.bare.reference (wmemBranchRef env.branch) with
  | none => rw [href] at he; simp at he
  | some tipHash =>
      rw [href] at he
      simp only [Bool.and_eq_true, decide_eq_true_eq] at he
      obtain ⟨he1, hMerged⟩ := he
      cases hco : env.bare.commitObject tipHash with
      | none => rw [hco] at he1; simp at he1
      | some tipC =>
          rw [hco] at he1
          have hNotNewer : hasFilesNewerThan env.wd tipC.commitCommitter.time = false := by
            simpa using he1
          cases hck : env.checkpoint with
          | none => rw [hck] at hf; simp at hf
          | some v =>
              rw [hck] at hf
              have hf' : (!(decide (env.wd.rootMtime > v))) = true := hf
              have hbranch : ensureWmemBranchExists env = env := by
                unfold ensureWmemBranchExists
                rw [href]
              have hhead : ensureWmemHeadBranch env = .ok env := by
                unfold ensureWmemHeadBranch
                simp only [href]
                rw [← hb]
              have hfetch : fetchLatestChanges env = .ok env := by
                unfold fetchLatestChanges
                rw [hd, if_pos hc]
              have hmerge : ensureWorkdirCommitMerged fuel now env info = .ok (env, true) := by
                unfold ensureWorkdirCommitMerged
                simp only [href, hMerged]
              have hlast : getLastWmemCommitTime env = .ok tipC.commitCommitter.time := by
                unfold getLastWmemCommitTime
                simp only [href, hco]
              have hdel : hasFilesDeletedUsingDirectoryMtime fuel now env =
                  .ok (env, false) := by
                unfold hasFilesDeletedUsingDirectoryMtime
                simp only [hck, hf']
                simp
              have hts : hasFilesNewerThanLastWmemCommit fuel now env = .ok (env, false) := by
                unfold hasFilesNewerThanLastWmemCommit hasFilesDeletedSinceLastWmemCommit
                simp only [hlast, hNotNewer, hdel]
                simp
              have hcmf : checkModifiedFiles fuel now env = (env, .ok false) := by
                unfold checkModifiedFiles
                simp only [hts]
              refine ⟨name, ?_⟩
              unfold checkWorkdirInParallel
              simp only [hFind, hbranch, hhead, hfetch, hmerge, hcmf]

theorem runWorkdirChecks_quiescent (fuel : Nat) (now : Int) (info : CommitInfo) :
    ∀ (paths : List String) (m : MetaEnv),
      m.workdirs.Pairwise (fun a b => a.path ≠ b.path) →
      (∀ p ∈ paths, pathQuiescent fuel m p = true) →
      ∃ rs, runWorkdirChecks fuel now m.workdirMap info m paths = (m, rs) ∧
        ∀ r ∈ rs, ∃ ck, r.2 = Except.ok ck ∧ ck.hasModified = false := by
  intro paths
  induction paths with
  | nil =>
      intro m _ _
      exact ⟨[], rfl, by intro r hr; cases hr⟩
  | cons p rest ih =>
      intro m hpw hq
      have hp := hq p (List.mem_cons_self p rest)
      unfold pathQuiescent at hp
      cases hfind : findWdEnv m p with
      | none => rw [hfind] at hp; simp at hp
      | some env =>
          rw [hfind] at hp
          have hp' : quiescentWd fuel m.workdirMap env = true := hp
          obtain ⟨name, hcw⟩ :=
            checkWorkdirInParallel_quiescent fuel now m.workdirMap info env hp'
          have hupd : updateWdEnv m env = m := updateWdEnv_found_self m p env hpw hfind
          obtain ⟨rs, hrun, hall⟩ :=
            ih m hpw (fun q hqmem => hq q (List.mem_cons_of_mem p hqmem))
          refine ⟨(p, .ok ⟨name, env.branch, false⟩) :: rs, ?_, ?_⟩
          · simp only [runWorkdirChecks, hfind, hcw, hupd, hrun]
          · intro r hr
            rcases List.mem_cons.mp hr with h | h
            · subst h
              exact ⟨⟨name, env.branch, false⟩, rfl, rfl⟩
            · exact hall r h

theorem processCheckResults_all_clean (now : Int) (info : CommitInfo) :
    ∀ (checks : List (String × Except String CheckOk)) (m : MetaEnv),
      (∀ r ∈ checks, ∃ ck, r.2 = Except.ok ck ∧ ck.hasModified = false) →
      ∃ rs, processCheckResults now info m checks = (m, .ok rs) ∧
        (rs.any fun r => r.hasChanges) = false := by
  intro checks
  induction checks with
  | nil => intro m _; exact ⟨[], rfl, rfl⟩
  | cons r rest ih =>
      intro m hall
      rcases r with ⟨p, res⟩
      obtain ⟨ck, hok, hmod⟩ := hall (p, res) (List.mem_cons_self _ _)
      have hok' : res = Except.ok ck := hok
      subst hok'
      obtain ⟨rs, hrest, hany⟩ := ih m (fun q hqm => hall q (List.mem_cons_of_mem _ hqm))
      refine ⟨⟨ck.workdirName, ck.branchName, "", false⟩ :: rs, ?_, ?_⟩
      · simp only [processCheckResults, hmod, hrest]
        simp
      · simp [hany]

/-- **C6 (amended).** When every configured workdir is quiescent — its
check cascade early-exits at the timestamp step with a current persisted
mtime checkpoint, nothing is left to fetch or merge and the symbolic HEAD
already points at the meta-branch — and the meta worktree is clean, a
`commitAll` run is a complete no-op: the whole state (every bare store,
every checkpoint, the meta-store) is returned unchanged and the run
succeeds.  This is the situation a second back-to-back run finds exactly
when the previous run left a current checkpoint behind; otherwise the
second run may commit, as the counterexample shows. -/
theorem commit_noop_when_quiescent
    (fuel : Nat) (now : Int) (uid : String) (paths : List String) (m : MetaEnv)
    (hpw : m.workdirs.Pairwise (fun a b => a.path ≠ b.path))
    (hinfo : exceptOk (readCommitInfo uid m.msgPrefixFile m.authorFile m.committerFile) =
      true)
    (hq : ∀ p ∈ paths, pathQuiescent fuel m p = true)
    (hmeta : hasWmemRepoMetadataChanges m = false) :
    commitAll fuel now uid paths m = (m, Except.ok ()) := by
  unfold commitAll
  cases hri : readCommitInfo uid m.msgPrefixFile m.authorFile m.committerFile with
  | error e => rw [hri] at hinfo; simp [exceptOk] at hinfo
  | ok info =>
      obtain ⟨checks, hrun, hall⟩ := runWorkdirChecks_quiescent fuel now info paths m hpw hq
      dsimp only
      rw [hrun]
      dsimp only
      obtain ⟨rs, hproc, hany⟩ := processCheckResults_all_clean now info checks m hall
      rw [hproc]
      dsimp only
      rw [hany, hmeta]
      rfl

theorem commit_noop_when_quiescent_witness :
    commitAll 20 400 "u3" ["../proj"] c6Run2 = (c6Run2, Except.ok ()) :=
  commit_noop_when_quiescent 20 400 "u3" ["../proj"] c6Run2
    (by decide) (by decide) (by decide) (by decide)

theorem commit_failure_no_meta_commit_and_stops_witness :
    c7Run.1.metaCommits = c7Meta.metaCommits ∧
    processCheckResults 200 c3Info c7Meta [("../p2", .error "boom")] =
      (c7Meta, .error ("failed to check workdir ../p2: boom")) :=
  commit_failure_no_meta_commit_and_stops 20 200 "u" ["../p1", "../p2"] c7Meta
    c3Info "../p2" "boom" [] (by decide)

end GitWmem
